import Mathlib

/-!
# RIW-16 interpreter: a shallow embedding of `riw-16.c` / `riw-16.h`

The machine state of the C program (the file-scope arrays `memory` and
`registers`) becomes an explicit `Machine` value that every operation takes and
returns.  `uint16_t` values are natural numbers; every place where the C code
converts an `int` back to `uint16_t` is an explicit reduction modulo `65536`.
A sum of two `uint16_t` operands is an `int` that cannot be negative and is a
natural number here; a difference is an integer.
C expressions of type `int` that index `memory` are *not* reduced: an index
outside the array is undefined behaviour in C and is a `Fault` here, as is a
shift by a count that is not smaller than the width of `int`.
Characters written with `putchar` are collected, in order, in a list of bytes.
-/

namespace Riw16

/-! ## Constants of `riw-16.h` -/

def AVAILABLE_RAM : Nat := 0x10000
def MMIO_SIZE : Nat := 0x6
def MMIO_CHAROUT : Nat := AVAILABLE_RAM - 0x1
def MMIO_CHARIN : Nat := AVAILABLE_RAM - 0x2
def MMIO_STOREIO : Nat := AVAILABLE_RAM - 0x3
def MMIO_STOREMSW : Nat := AVAILABLE_RAM - 0x4
def MMIO_STORELSW : Nat := AVAILABLE_RAM - 0x5
def MMIO_HALT : Nat := AVAILABLE_RAM - 0x6

def LOCT : Nat := 0b0000
def LOAD : Nat := 0b0001
def STORE : Nat := 0b0010
def ADD : Nat := 0b0011
def SUB : Nat := 0b0100
def CMPA : Nat := 0b0101
def CMPS : Nat := 0b0110
def BRANCH : Nat := 0b0111
def SHIFT : Nat := 0b1000
def AND : Nat := 0b1001
def OR : Nat := 0b1010
def XOR : Nat := 0b1011
def NOR : Nat := 0b1100
def MSO : Nat := 0b1101
def LSO : Nat := 0b1110
def UOCT : Nat := 0b1111

def INPUT_LOOP : Nat := 32
def STORAGE_LOOP : Nat := 256

/-! ## Machine integers -/

/-- Conversion of a non-negative C `int` to `uint16_t`. -/
def u16 (n : Nat) : Nat := n % 65536

/-- Conversion of a C `int` that may be negative to `uint16_t`. -/
def u16_of_int (z : Int) : Nat := (z % 65536).toNat

/-- Conversion `(int16_t) x` of a `uint16_t` value (twos-complement wrap). -/
def int16 (x : Nat) : Int := if x % 65536 < 32768 then (x % 65536 : Nat) else (x % 65536 : Nat) - 65536

/-- Width in bits of the C type `int`, to which `uint16_t` operands are promoted. -/
def INT_BITS : Nat := 32

/-! ## Machine state -/

/-- Undefined behaviour of the C program that the embedding makes explicit. -/
inductive Fault where
  | outOfBounds
  | shiftCount
  deriving DecidableEq, Repr

/-- The arrays `uint16_t memory[AVAILABLE_RAM]` and `uint16_t registers[16]`. -/
structure Machine where
  memory : Nat → Nat
  registers : Nat → Nat

/-- Every stored value is a `uint16_t`. -/
def Machine.WF (m : Machine) : Prop :=
  (∀ a, a < AVAILABLE_RAM → m.memory a < 65536) ∧ (∀ r, r < 16 → m.registers r < 65536)

/-- Assignment `arr[i] = v`. -/
def assign (arr : Nat → Nat) (i v : Nat) : Nat → Nat := fun j => if j = i then v else arr j

/-- Read of `memory[index]`. -/
def mem_read (memory : Nat → Nat) (index : Nat) : Except Fault Nat :=
  if index < AVAILABLE_RAM then .ok (memory index) else .error .outOfBounds

/-- Write `memory[index] = value`. -/
def mem_write (memory : Nat → Nat) (index : Nat) (value : Nat) : Except Fault (Nat → Nat) :=
  if index < AVAILABLE_RAM then .ok (assign memory index value) else .error .outOfBounds

/-! ## Character output -/

/-- Library `putchar(c)`: the byte `(unsigned char) c` is written. -/
def putchar (c : Int) : List Nat := [(c % 256).toNat]

namespace Unix

/-- The `printchar` of the `__unix__` branch. -/
def printchar (c : Int) : List Nat :=
  (if c > 31 ∧ c < 127 then putchar c else []) ++
  (if c = 10 then putchar 10 else []) ++
  (if c = 127 then putchar 8 else [])

end Unix

namespace Win32

/-- The `printchar` of the `_WIN32` branch. -/
def printchar (c : Int) : List Nat :=
  let c1 : Int := if c = 127 then 8 else c
  putchar c1 ++ (if c1 = 13 then putchar 10 else [])

end Win32

/-! ## The instruction cycle -/

/-- Function `check_halt(uint16_t address)`. -/
def check_halt (address : Nat) : Int := (if address = MMIO_HALT then 1 else 0) * 255

/-- Function `compare`, reading the global `registers`. -/
def compare (registers : Nat → Nat) (cmp_temp r1 r2 r3 : Nat) : Nat :=
  let flags_temp := registers r1
  -- carry
  let flags_temp :=
    if cmp_temp < registers r2 ∨ cmp_temp < registers r3 then flags_temp ||| 0b1000
    else flags_temp &&& 0b1111111111110111
  -- overflow
  let flags_temp :=
    if int16 (registers r2 ^^^ registers r3) ≥ 0 ∧ int16 (registers r2 ^^^ cmp_temp) < 0 then
      flags_temp ||| 0b0100
    else flags_temp &&& 0b1111111111111011
  -- negative
  let flags_temp :=
    if cmp_temp &&& 0x8000 ≠ 0 then flags_temp ||| 0b0010
    else flags_temp &&& 0b1111111111111101
  -- zero
  let flags_temp :=
    if cmp_temp = 0 then flags_temp ||| 0b0001
    else flags_temp &&& 0b1111111111111110
  flags_temp

/-- What one call of `do_instruction` leaves behind. -/
structure Outcome where
  machine : Machine
  output : List Nat
  rv : Int

/-- The instruction word `memory[registers[15]]` that `do_instruction` fetches. -/
def fetch (m : Machine) : Nat := m.memory (m.registers 15)

/-- Local `opcode = (instruction & 0xf000) >> 12` of `do_instruction`. -/
def opcode_of (instruction : Nat) : Nat := (instruction &&& 0xf000) >>> 12

/-- Local `reg1 = (instruction & 0x0f00) >> 8` of `do_instruction`: operand field A. -/
def reg1_of (instruction : Nat) : Nat := (instruction &&& 0x0f00) >>> 8

/-- Local `reg2 = (instruction & 0x00f0) >> 4` of `do_instruction`: operand field B. -/
def reg2_of (instruction : Nat) : Nat := (instruction &&& 0x00f0) >>> 4

/-- Local `reg3 = (instruction & 0x000f)` of `do_instruction`: operand field C. -/
def reg3_of (instruction : Nat) : Nat := instruction &&& 0x000f

/-- The register file after `registers[15] += 1`. -/
def bump (registers : Nat → Nat) : Nat → Nat :=
  assign registers 15 (u16 (registers 15 + 1))

/-- Function `do_instruction`; `printchar` is the character-output adapter of the platform.
The result carries the machine after the instruction, the bytes written and the return value.
The cases of the `switch` are tried in the order of the source.  In the SHIFT case the left shift
is reached only for a count whose `int16_t` reading is negative, which for a `uint16_t` count
means at least 32768 and is a fault. -/
def do_instruction (printchar : Int → List Nat) (m : Machine) : Except Fault Outcome := do
  let instruction ← mem_read m.memory (m.registers 15)
  let opcode := opcode_of instruction
  let reg1 := reg1_of instruction
  let reg2 := reg2_of instruction
  let reg3 := reg3_of instruction
  let memory := m.memory
  let registers := bump m.registers
  if opcode = LOCT then
    let registers := assign registers reg1 ((registers reg1 &&& 0xff00) ||| (instruction &&& 0xff))
    .ok ⟨⟨memory, registers⟩, [], 0⟩
  else if opcode = LOAD then
    let v ← mem_read memory (registers reg2 + registers reg3)
    let registers := assign registers reg1 v
    .ok ⟨⟨memory, registers⟩, [], check_halt (u16 (registers reg2 + registers reg3))⟩
  else if opcode = STORE then
    let memory ← mem_write memory (registers reg1 + registers reg2) (registers reg3)
    let output :=
      if registers reg1 + registers reg2 = MMIO_CHAROUT then printchar (registers reg3) else []
    .ok ⟨⟨memory, registers⟩, output, check_halt (u16 (registers reg1 + registers reg2))⟩
  else if opcode = ADD then
    let registers := assign registers reg1 (u16 (registers reg2 + registers reg3))
    .ok ⟨⟨memory, registers⟩, [], 0⟩
  else if opcode = SUB then
    let registers := assign registers reg1 (u16_of_int ((registers reg2 : Int) - registers reg3))
    .ok ⟨⟨memory, registers⟩, [], 0⟩
  else if opcode = CMPA then
    let registers := assign registers reg1
      (compare registers (u16 (registers reg2 + registers reg3)) reg1 reg2 reg3)
    .ok ⟨⟨memory, registers⟩, [], 0⟩
  else if opcode = CMPS then
    let registers := assign registers reg1
      (compare registers (u16_of_int ((registers reg2 : Int) - registers reg3)) reg1 reg2 reg3)
    .ok ⟨⟨memory, registers⟩, [], 0⟩
  else if opcode = BRANCH then
    let registers :=
      if registers reg2 &&& reg3 = reg3 then assign registers 15 (registers reg1) else registers
    .ok ⟨⟨memory, registers⟩, [], 0⟩
  else if opcode = SHIFT then
    if int16 (registers reg3) < 0 then
      if registers reg3 < INT_BITS then
        let registers := assign registers reg1 (u16 (registers reg2 <<< registers reg3))
        .ok ⟨⟨memory, registers⟩, [], 0⟩
      else .error .shiftCount
    else
      if registers reg3 < INT_BITS then
        let registers := assign registers reg1 (u16 (registers reg2 >>> registers reg3))
        .ok ⟨⟨memory, registers⟩, [], 0⟩
      else .error .shiftCount
  else if opcode = AND then
    let registers := assign registers reg1 (registers reg2 &&& registers reg3)
    .ok ⟨⟨memory, registers⟩, [], 0⟩
  else if opcode = OR then
    let registers := assign registers reg1 (registers reg2 ||| registers reg3)
    .ok ⟨⟨memory, registers⟩, [], 0⟩
  else if opcode = XOR then
    let registers := assign registers reg1 (registers reg2 ^^^ registers reg3)
    .ok ⟨⟨memory, registers⟩, [], 0⟩
  else if opcode = NOR then
    let registers := assign registers reg1 (registers reg2 ||| registers reg3)
    .ok ⟨⟨memory, registers⟩, [], 0⟩
  else if opcode = MSO then
    let v ← mem_read memory (registers reg2 + registers reg3)
    let registers := assign registers reg1 (v &&& 0xff)
    .ok ⟨⟨memory, registers⟩, [], check_halt (u16 (registers reg2 + registers reg3))⟩
  else if opcode = LSO then
    let v ← mem_read memory (registers reg2 + registers reg3)
    let registers := assign registers reg1 ((v &&& 0xff00) >>> 8)
    .ok ⟨⟨memory, registers⟩, [], check_halt (u16 (registers reg2 + registers reg3))⟩
  else if opcode = UOCT then
    let registers := assign registers reg1 ((registers reg1 &&& 0xff) ||| (instruction &&& 0xff00))
    .ok ⟨⟨memory, registers⟩, [], 0⟩
  else
    .ok ⟨⟨memory, registers⟩, [], 0⟩

/-! ## The main loop -/

/-- Function `input_wrapper`; `c` is what `input()` returned. -/
def input_wrapper (c : Int) (result : Nat) : Nat :=
  if c ≠ -1 ∧ c ≠ 0 then u16_of_int c else result

/-- Function `quit(status)`: the terminal is restored and the process exits with `status`. -/
def quit (status : Int) : Int := status

/-- The variables of `main` that are live in its `while (running)` loop, together with the
machine and the bytes written so far. -/
structure Loop where
  machine : Machine
  running : Nat
  return_value : Int
  cycles : Nat
  input_pointer : Nat
  is_storage_open : Nat
  output : List Nat

/-- The state at the loop head of `main`, after `running = 1; registers[15] = 0;` and the
initialisation of the locals, for the memory that `load_program` left. -/
def main_init (m : Machine) : Loop :=
  { machine := ⟨m.memory, assign m.registers 15 0⟩, running := 1, return_value := 0, cycles := 1,
    input_pointer := 0, is_storage_open := 0, output := [] }

/-- One pass through the body of `while (running)`; `c` is the result of `input()`. -/
def loop_body (printchar : Int → List Nat) (c : Int) (l : Loop) : Except Fault Loop := do
  let input_pointer := input_wrapper c l.input_pointer
  let o ← do_instruction printchar l.machine
  let return_value := o.rv
  let running := if return_value ≠ 0 then 0 else l.running
  let poll := l.cycles = 0 ∧ input_pointer ≠ 0
  let memory := if poll then assign o.machine.memory MMIO_CHARIN input_pointer else o.machine.memory
  let input_pointer := if poll then 0 else input_pointer
  let is_storage_open :=
    if l.is_storage_open ≠ 0 then (l.is_storage_open + 1) % STORAGE_LOOP else l.is_storage_open
  let cycles := (l.cycles + 1) % INPUT_LOOP
  .ok { machine := ⟨memory, o.machine.registers⟩, running := running, return_value := return_value,
        cycles := cycles, input_pointer := input_pointer, is_storage_open := is_storage_open,
        output := l.output ++ o.output }

/-- The loop `while (running) { ... }`, for at most `fuel` passes; `input k` is what `input()`
returns in pass `k`.  The result is the state on leaving the loop and the number of passes made,
or `none` when the loop is still running after `fuel` passes. -/
def main_loop (printchar : Int → List Nat) (input : Nat → Int) :
    Nat → Nat → Loop → Except Fault (Option (Loop × Nat))
  | 0, k, l => if l.running = 0 then .ok (some (l, k)) else .ok none
  | fuel + 1, k, l =>
    if l.running = 0 then .ok (some (l, k))
    else
      match loop_body printchar (input k) l with
      | .error e => .error e
      | .ok l1 => main_loop printchar input fuel (k + 1) l1

/-- The end of `main`: `if (return_value == 255) return_value = 0; quit(return_value);`. -/
def main_exit (l : Loop) : Int :=
  let return_value := if l.return_value = 255 then 0 else l.return_value
  quit return_value

/-- Function `main` from `running = 1` on: the status passed to `quit` and the number of
instructions executed. -/
def main_run (printchar : Int → List Nat) (input : Nat → Int) (fuel : Nat) (m : Machine) :
    Except Fault (Option (Int × Nat)) := do
  let r ← main_loop printchar input fuel 0 (main_init m)
  .ok (r.map fun p => (main_exit p.1, p.2))

/-! ## The loader -/

/-- Library `fread(memory, 2, count, file)` on a file freshly rewound, for a little-endian
host: up to `2 * count` bytes of the file are copied to the start of `memory`.  A word that the
file covers with both bytes is replaced; of a word that only the last byte of a file of odd
length reaches, the low byte is replaced and the high byte is kept, as the C library copies the
bytes of an incomplete last item too. -/
def fread_words (memory : Nat → Nat) (count : Nat) (bytes : List Nat) : Nat → Nat :=
  fun a =>
    if 2 * a + 1 < min (2 * count) bytes.length then
      bytes.getD (2 * a) 0 + 256 * bytes.getD (2 * a + 1) 0
    else if 2 * a < min (2 * count) bytes.length then
      bytes.getD (2 * a) 0 + 256 * (memory a / 256)
    else memory a

/-- Function `load_program`; `file` is `none` when `fopen` fails and the bytes of the file
otherwise.  Returns the status and the memory. -/
def load_program (file : Option (List Nat)) (memory : Nat → Nat) : Int × (Nat → Nat) :=
  match file with
  | none => (1, memory)
  | some bytes =>
    let filelen := bytes.length % 2 ^ 32
    if filelen > AVAILABLE_RAM - MMIO_SIZE then (2, memory)
    else (0, fread_words memory filelen bytes)

/-! ## Observations and concrete machine states used in the theorems -/

/-- State with `memory[0] = 0x2123` (STORE, A = 1, B = 2, C = 3), `registers[1] = 0xFFFF`,
`registers[2] = 0xFFFB`, everything else zero. -/
def storeWrapState : Machine :=
  ⟨fun a => if a = 0 then 0x2123 else 0, fun r => if r = 1 then 0xFFFF else if r = 2 then 0xFFFB else 0⟩

/-- State with `memory[0] = 0x1112` (LOAD, A = 1, B = 1, C = 2), `registers[1] = 0xFFFA`,
everything else zero; in particular `memory[0xFFFA] = 0`. -/
def loadAliasState : Machine :=
  ⟨fun a => if a = 0 then 0x1112 else 0, fun r => if r = 1 then 0xFFFA else 0⟩

/-- State with `memory[0] = 0x7120 + mask` (BRANCH, dest = 1, srcA = 2, mask field `mask`),
`registers[1] = 0x1234`, `registers[2] = 0b0110`, everything else zero. -/
def branchState (mask : Nat) : Machine :=
  ⟨fun a => if a = 0 then 0x7120 + mask else 0, fun r => if r = 1 then 0x1234 else if r = 2 then 0b0110 else 0⟩

/-- State with `memory[0] = 0xF012` (UOCT, A = 0, immediate 0x12), `registers[0] = 0x00AB`,
everything else zero. -/
def uoctState : Machine :=
  ⟨fun a => if a = 0 then 0xF012 else 0, fun r => if r = 0 then 0x00AB else 0⟩

/-- State with `memory[0] = 0x3012` (ADD, A = 0, B = 1, C = 2), `registers[1] = 0xFFFF`,
`registers[2] = 3`, everything else zero. -/
def addState : Machine :=
  ⟨fun a => if a = 0 then 0x3012 else 0, fun r => if r = 1 then 0xFFFF else if r = 2 then 3 else 0⟩

/-- State with `memory[0] = 0x2123` (STORE, A = 1, B = 2, C = 3), `registers[1] = 0xFFF0`,
`registers[2] = 0x000F`, `registers[3] = 0x41`, everything else zero: a store of the letter A to
the CHAROUT port. -/
def charoutState : Machine :=
  ⟨fun a => if a = 0 then 0x2123 else 0,
    fun r => if r = 1 then 0xFFF0 else if r = 2 then 0x000F else if r = 3 then 0x41 else 0⟩

/-- State with `memory[0] = 0x5012` (CMPA, A = 0, B = 1, C = 2), `registers[1] = 0xFFFF`,
`registers[2] = 1`, everything else zero. -/
def cmpaState : Machine :=
  ⟨fun a => if a = 0 then 0x5012 else 0, fun r => if r = 1 then 0xFFFF else if r = 2 then 1 else 0⟩

/-- State with `memory[0] = 0x6012` (CMPS, A = 0, B = 1, C = 2), `registers[1] = 5`,
`registers[2] = 3`, everything else zero. -/
def cmpsState : Machine :=
  ⟨fun a => if a = 0 then 0x6012 else 0, fun r => if r = 1 then 5 else if r = 2 then 3 else 0⟩

/-- State with the single instruction word `instruction` at `memory[0]`, `registers[1] = a`,
`registers[2] = b`, `registers[3] = c`, everything else zero (so PC = 0). -/
def oneInstr (instruction a b c : Nat) : Machine :=
  ⟨fun addr => if addr = 0 then instruction else 0,
    fun r => if r = 1 then a else if r = 2 then b else if r = 3 then c else 0⟩

/-- The states in which a step of `do_instruction` is undefined behaviour in C: a load-type
read or a STORE write whose index, the un-wrapped sum of two registers, is outside `memory`, or a
SHIFT whose count is not smaller than the width of `int`. -/
def undefined_step (m : Machine) : Prop :=
  ((opcode_of (fetch m) = LOAD ∨ opcode_of (fetch m) = MSO ∨ opcode_of (fetch m) = LSO) ∧
    AVAILABLE_RAM ≤ bump m.registers (reg2_of (fetch m)) + bump m.registers (reg3_of (fetch m))) ∨
  (opcode_of (fetch m) = STORE ∧
    AVAILABLE_RAM ≤ bump m.registers (reg1_of (fetch m)) + bump m.registers (reg2_of (fetch m))) ∨
  (opcode_of (fetch m) = SHIFT ∧ INT_BITS ≤ bump m.registers (reg3_of (fetch m)))

/-! ## The storage device -/

def STORAGE_SPACE : Nat := 0x400000

/-- Library calls made on the storage file. -/
inductive FileOp where
  | fopen_append
  | fclose
  | fopen_update
  | fseek_end
  | ftell
  | fseek_set
  deriving DecidableEq, Repr

/-- How a call ends: it returns a value to its caller, or `quit(status)` ends the process. -/
inductive Ended (α : Type) where
  | returned (value : α)
  | quitted (status : Int)
  deriving DecidableEq, Repr

/-- What a call of a storage function did: how it ended, the bytes it wrote with `putchar`, and
the library calls it made on the storage file, in order.  Messages on `stderr` are left out. -/
structure StorageCall (α : Type) where
  ended : Ended α
  output : List Nat
  file_ops : List FileOp
  deriving DecidableEq, Repr

/-- Function `open_storage`, reading the globals `storage_name` and `is_storage_open`.  The
environment is `reopen`: `none` when `fopen(storage_name, "rb+")` fails, and the length in bytes
that `ftell` reports otherwise; the `fopen(storage_name, "a")` before it is taken to succeed.
The `fclose(file)` before `quit(5)` is recorded as a close of the storage file. -/
def open_storage (storage_name : String) (is_storage_open : Nat) (reopen : Option Nat) :
    StorageCall Int :=
  if storage_name = "" then
    ⟨.returned (-1), putchar 7, []⟩
  else if is_storage_open = 0 then
    match reopen with
    | none => ⟨.quitted (quit 4), [], [.fopen_append, .fclose, .fopen_update]⟩
    | some length =>
      let filelen := length % 2 ^ 32
      if filelen > STORAGE_SPACE then
        ⟨.quitted (quit 5), [],
          [.fopen_append, .fclose, .fopen_update, .fseek_end, .ftell, .fseek_set, .fclose]⟩
      else
        ⟨.returned 0, [], [.fopen_append, .fclose, .fopen_update, .fseek_end, .ftell, .fseek_set]⟩
  else ⟨.returned 0, [], []⟩

/-- Function `write_storage`: after the call of `open_storage` its body is empty. -/
def write_storage (storage_name : String) (is_storage_open : Nat) (reopen : Option Nat)
    (_data : Nat) : StorageCall Unit :=
  let r := open_storage storage_name is_storage_open reopen
  match r.ended with
  | .quitted status => ⟨.quitted status, r.output, r.file_ops⟩
  | .returned v =>
    if v ≠ 0 then ⟨.returned (), r.output, r.file_ops⟩
    else ⟨.returned (), r.output, r.file_ops⟩

/-! ## Basic facts -/

theorem fetch_ok {m : Machine} (h : m.WF) :
    mem_read m.memory (m.registers 15) = .ok (fetch m) := by
  have h15 := h.2 15 (by decide)
  unfold mem_read fetch AVAILABLE_RAM
  rw [if_pos h15]

theorem wf_of_bounds {m : Machine} (hm : ∀ a, m.memory a < 65536) (hr : ∀ r, m.registers r < 65536) :
    m.WF :=
  ⟨fun a _ => hm a, fun r _ => hr r⟩

theorem branchState_wf (mask : Nat) (h : mask < 16) : (branchState mask).WF := by
  apply wf_of_bounds
  · intro a; simp only [branchState]; split <;> omega
  · intro r; simp only [branchState]; split_ifs <;> omega

theorem addState_wf : addState.WF := by
  apply wf_of_bounds
  · intro a; simp only [addState]; split <;> omega
  · intro r; simp only [addState]; split_ifs <;> omega

theorem charoutState_wf : charoutState.WF := by
  apply wf_of_bounds
  · intro a; simp only [charoutState]; split <;> omega
  · intro r; simp only [charoutState]; split_ifs <;> omega

theorem cmpaState_wf : cmpaState.WF := by
  apply wf_of_bounds
  · intro a; simp only [cmpaState]; split <;> omega
  · intro r; simp only [cmpaState]; split_ifs <;> omega

theorem cmpsState_wf : cmpsState.WF := by
  apply wf_of_bounds
  · intro a; simp only [cmpsState]; split <;> omega
  · intro r; simp only [cmpsState]; split_ifs <;> omega

theorem reg1_of_lt (i : Nat) : reg1_of i < 16 := by
  unfold reg1_of
  have h : i &&& 0x0f00 ≤ 0x0f00 := Nat.and_le_right
  rw [Nat.shiftRight_eq_div_pow]
  omega

theorem reg2_of_lt (i : Nat) : reg2_of i < 16 := by
  unfold reg2_of
  have h : i &&& 0x00f0 ≤ 0x00f0 := Nat.and_le_right
  rw [Nat.shiftRight_eq_div_pow]
  omega

theorem reg3_of_lt (i : Nat) : reg3_of i < 16 := by
  unfold reg3_of
  have h : i &&& 0x000f ≤ 0x000f := Nat.and_le_right
  omega

theorem bump_lt {m : Machine} (h : m.WF) {r : Nat} (hr : r < 16) : bump m.registers r < 65536 := by
  have := h.2 r hr
  unfold bump assign u16
  split <;> omega

theorem assign_same (arr : Nat → Nat) (i v : Nat) : assign arr i v i = v := by
  simp [assign]

/-- Bit 3 of the result of `compare` is the outcome of its carry test. -/
theorem compare_testBit_carry (registers : Nat → Nat) (cmp_temp r1 r2 r3 : Nat) :
    (compare registers cmp_temp r1 r2 r3).testBit 3 =
      decide (cmp_temp < registers r2 ∨ cmp_temp < registers r3) := by
  have e1 : Nat.testBit 8 3 = true := by decide
  have e2 : Nat.testBit 4 3 = false := by decide
  have e3 : Nat.testBit 2 3 = false := by decide
  have e4 : Nat.testBit 1 3 = false := by decide
  have e5 : Nat.testBit 65527 3 = false := by decide
  have e6 : Nat.testBit 65531 3 = true := by decide
  have e7 : Nat.testBit 65533 3 = true := by decide
  have e8 : Nat.testBit 65534 3 = true := by decide
  unfold compare
  simp only []
  by_cases hc : cmp_temp < registers r2 ∨ cmp_temp < registers r3
  · simp only [if_pos hc]
    split_ifs <;> simp [Nat.testBit_or, Nat.testBit_and, e1, e2, e3, e4, e5, e6, e7, e8, hc]
  · simp only [if_neg hc]
    split_ifs <;> simp [Nat.testBit_or, Nat.testBit_and, e1, e2, e3, e4, e5, e6, e7, e8, hc]

/-- A pass of the loop body whose instruction returns 255 is the last one, and the status
handed to `quit` is then 0. -/
theorem main_loop_stops (printchar : Int → List Nat) (input : Nat → Int) (fuel k : Nat) (l : Loop)
    (o : Outcome) (hrun : l.running ≠ 0) (hstep : do_instruction printchar l.machine = .ok o)
    (hrv : o.rv = 255) :
    ∃ l1, main_loop printchar input (fuel + 1) k l = .ok (some (l1, k + 1)) ∧
      l1.running = 0 ∧ l1.machine.registers = o.machine.registers ∧ main_exit l1 = 0 := by
  have hbody : ∃ l1, loop_body printchar (input k) l = .ok l1 ∧ l1.running = 0 ∧
      l1.machine.registers = o.machine.registers ∧ l1.return_value = 255 := by
    unfold loop_body
    rw [hstep]
    simp only [bind, Except.bind]
    refine ⟨_, rfl, ?_, rfl, hrv⟩
    simp [hrv]
  obtain ⟨l1, h1, h2, h3, h4⟩ := hbody
  refine ⟨l1, ?_, h2, h3, ?_⟩
  · rw [main_loop, if_neg hrun, h1]
    cases fuel <;> simp only [main_loop, if_pos h2]
  · simp [main_exit, quit, h4]

/-! ## One lemma per opcode: what `do_instruction` computes -/

theorem opcode_of_lt (i : Nat) : opcode_of i < 16 := by
  unfold opcode_of
  have h : i &&& 0xf000 ≤ 0xf000 := Nat.and_le_right
  rw [Nat.shiftRight_eq_div_pow]
  omega

theorem opcode_cases (i : Nat) :
    opcode_of i = LOCT ∨ opcode_of i = LOAD ∨ opcode_of i = STORE ∨ opcode_of i = ADD ∨
    opcode_of i = SUB ∨ opcode_of i = CMPA ∨ opcode_of i = CMPS ∨ opcode_of i = BRANCH ∨
    opcode_of i = SHIFT ∨ opcode_of i = AND ∨ opcode_of i = OR ∨ opcode_of i = XOR ∨
    opcode_of i = NOR ∨ opcode_of i = MSO ∨ opcode_of i = LSO ∨ opcode_of i = UOCT := by
  have h := opcode_of_lt i
  simp only [LOCT, LOAD, STORE, ADD, SUB, CMPA, CMPS, BRANCH, SHIFT, AND, OR, XOR, NOR, MSO, LSO, UOCT]
  omega


theorem do_instruction_LOCT (printchar : Int → List Nat) {m : Machine} (h : m.WF)
    (hop : opcode_of (fetch m) = LOCT) :
    do_instruction printchar m =
      .ok ⟨⟨m.memory, assign (bump m.registers) (reg1_of (fetch m))
        ((bump m.registers (reg1_of (fetch m)) &&& 0xff00) ||| (fetch m &&& 0xff))⟩, [], 0⟩ := by
  unfold do_instruction
  rw [fetch_ok h]
  simp only [bind, Except.bind, hop]
  rfl

theorem do_instruction_LOAD (printchar : Int → List Nat) {m : Machine} (h : m.WF)
    (hop : opcode_of (fetch m) = LOAD) :
    do_instruction printchar m =
      if bump m.registers (reg2_of (fetch m)) + bump m.registers (reg3_of (fetch m)) < AVAILABLE_RAM then
        .ok ⟨⟨m.memory, assign (bump m.registers) (reg1_of (fetch m)) (m.memory (bump m.registers (reg2_of (fetch m)) + bump m.registers (reg3_of (fetch m))))⟩, [],
          check_halt (u16
            (assign (bump m.registers) (reg1_of (fetch m)) (m.memory (bump m.registers (reg2_of (fetch m)) + bump m.registers (reg3_of (fetch m)))) (reg2_of (fetch m)) +
              assign (bump m.registers) (reg1_of (fetch m)) (m.memory (bump m.registers (reg2_of (fetch m)) + bump m.registers (reg3_of (fetch m)))) (reg3_of (fetch m))))⟩
      else .error .outOfBounds := by
  have key : do_instruction printchar m =
      Except.bind (mem_read m.memory (bump m.registers (reg2_of (fetch m)) + bump m.registers (reg3_of (fetch m)))) fun v =>
        .ok ⟨⟨m.memory, assign (bump m.registers) (reg1_of (fetch m)) v⟩, [],
          check_halt (u16 (assign (bump m.registers) (reg1_of (fetch m)) v (reg2_of (fetch m)) +
            assign (bump m.registers) (reg1_of (fetch m)) v (reg3_of (fetch m))))⟩ := by
    unfold do_instruction
    rw [fetch_ok h]
    simp only [bind, Except.bind, hop]
    rfl
  rw [key]
  unfold mem_read
  split <;> rfl

theorem do_instruction_STORE (printchar : Int → List Nat) {m : Machine} (h : m.WF)
    (hop : opcode_of (fetch m) = STORE) :
    do_instruction printchar m =
      if bump m.registers (reg1_of (fetch m)) + bump m.registers (reg2_of (fetch m)) < AVAILABLE_RAM then
        .ok ⟨⟨assign m.memory (bump m.registers (reg1_of (fetch m)) + bump m.registers (reg2_of (fetch m))) (bump m.registers (reg3_of (fetch m))), bump m.registers⟩,
          if bump m.registers (reg1_of (fetch m)) + bump m.registers (reg2_of (fetch m)) = MMIO_CHAROUT then printchar (bump m.registers (reg3_of (fetch m))) else [],
          check_halt (u16 (bump m.registers (reg1_of (fetch m)) + bump m.registers (reg2_of (fetch m))))⟩
      else .error .outOfBounds := by
  have key : do_instruction printchar m =
      Except.bind (mem_write m.memory (bump m.registers (reg1_of (fetch m)) + bump m.registers (reg2_of (fetch m))) (bump m.registers (reg3_of (fetch m)))) fun memory =>
        .ok ⟨⟨memory, bump m.registers⟩,
          if bump m.registers (reg1_of (fetch m)) + bump m.registers (reg2_of (fetch m)) = MMIO_CHAROUT then printchar (bump m.registers (reg3_of (fetch m))) else [],
          check_halt (u16 (bump m.registers (reg1_of (fetch m)) + bump m.registers (reg2_of (fetch m))))⟩ := by
    unfold do_instruction
    rw [fetch_ok h]
    simp only [bind, Except.bind, hop]
    rfl
  rw [key]
  unfold mem_write
  split <;> rfl

theorem do_instruction_ADD (printchar : Int → List Nat) {m : Machine} (h : m.WF)
    (hop : opcode_of (fetch m) = ADD) :
    do_instruction printchar m =
      .ok ⟨⟨m.memory, assign (bump m.registers) (reg1_of (fetch m))
        (u16 (bump m.registers (reg2_of (fetch m)) + bump m.registers (reg3_of (fetch m))))⟩, [], 0⟩ := by
  unfold do_instruction
  rw [fetch_ok h]
  simp only [bind, Except.bind, hop]
  rfl

theorem do_instruction_SUB (printchar : Int → List Nat) {m : Machine} (h : m.WF)
    (hop : opcode_of (fetch m) = SUB) :
    do_instruction printchar m =
      .ok ⟨⟨m.memory, assign (bump m.registers) (reg1_of (fetch m))
        (u16_of_int ((bump m.registers (reg2_of (fetch m)) : Int) - bump m.registers (reg3_of (fetch m))))⟩, [], 0⟩ := by
  unfold do_instruction
  rw [fetch_ok h]
  simp only [bind, Except.bind, hop]
  rfl

theorem do_instruction_CMPA (printchar : Int → List Nat) {m : Machine} (h : m.WF)
    (hop : opcode_of (fetch m) = CMPA) :
    do_instruction printchar m =
      .ok ⟨⟨m.memory, assign (bump m.registers) (reg1_of (fetch m))
        (compare (bump m.registers) (u16 (bump m.registers (reg2_of (fetch m)) + bump m.registers (reg3_of (fetch m))))
          (reg1_of (fetch m)) (reg2_of (fetch m)) (reg3_of (fetch m)))⟩, [], 0⟩ := by
  unfold do_instruction
  rw [fetch_ok h]
  simp only [bind, Except.bind, hop]
  rfl

theorem do_instruction_CMPS (printchar : Int → List Nat) {m : Machine} (h : m.WF)
    (hop : opcode_of (fetch m) = CMPS) :
    do_instruction printchar m =
      .ok ⟨⟨m.memory, assign (bump m.registers) (reg1_of (fetch m))
        (compare (bump m.registers) (u16_of_int ((bump m.registers (reg2_of (fetch m)) : Int) - bump m.registers (reg3_of (fetch m))))
          (reg1_of (fetch m)) (reg2_of (fetch m)) (reg3_of (fetch m)))⟩, [], 0⟩ := by
  unfold do_instruction
  rw [fetch_ok h]
  simp only [bind, Except.bind, hop]
  rfl

theorem do_instruction_BRANCH (printchar : Int → List Nat) {m : Machine} (h : m.WF)
    (hop : opcode_of (fetch m) = BRANCH) :
    do_instruction printchar m =
      .ok ⟨⟨m.memory,
        if bump m.registers (reg2_of (fetch m)) &&& reg3_of (fetch m) = reg3_of (fetch m) then
          assign (bump m.registers) 15 (bump m.registers (reg1_of (fetch m)))
        else bump m.registers⟩, [], 0⟩ := by
  unfold do_instruction
  rw [fetch_ok h]
  simp only [bind, Except.bind, hop]
  rfl

theorem do_instruction_SHIFT (printchar : Int → List Nat) {m : Machine} (h : m.WF)
    (hop : opcode_of (fetch m) = SHIFT) :
    do_instruction printchar m =
      if int16 (bump m.registers (reg3_of (fetch m))) < 0 then
        if bump m.registers (reg3_of (fetch m)) < INT_BITS then
          .ok ⟨⟨m.memory, assign (bump m.registers) (reg1_of (fetch m))
            (u16 (bump m.registers (reg2_of (fetch m)) <<< bump m.registers (reg3_of (fetch m))))⟩, [], 0⟩
        else .error .shiftCount
      else
        if bump m.registers (reg3_of (fetch m)) < INT_BITS then
          .ok ⟨⟨m.memory, assign (bump m.registers) (reg1_of (fetch m))
            (u16 (bump m.registers (reg2_of (fetch m)) >>> bump m.registers (reg3_of (fetch m))))⟩, [], 0⟩
        else .error .shiftCount := by
  unfold do_instruction
  rw [fetch_ok h]
  simp only [bind, Except.bind, hop]
  rfl

theorem do_instruction_AND (printchar : Int → List Nat) {m : Machine} (h : m.WF)
    (hop : opcode_of (fetch m) = AND) :
    do_instruction printchar m =
      .ok ⟨⟨m.memory, assign (bump m.registers) (reg1_of (fetch m))
        (bump m.registers (reg2_of (fetch m)) &&& bump m.registers (reg3_of (fetch m)))⟩, [], 0⟩ := by
  unfold do_instruction
  rw [fetch_ok h]
  simp only [bind, Except.bind, hop]
  rfl

theorem do_instruction_OR (printchar : Int → List Nat) {m : Machine} (h : m.WF)
    (hop : opcode_of (fetch m) = OR) :
    do_instruction printchar m =
      .ok ⟨⟨m.memory, assign (bump m.registers) (reg1_of (fetch m))
        (bump m.registers (reg2_of (fetch m)) ||| bump m.registers (reg3_of (fetch m)))⟩, [], 0⟩ := by
  unfold do_instruction
  rw [fetch_ok h]
  simp only [bind, Except.bind, hop]
  rfl

theorem do_instruction_XOR (printchar : Int → List Nat) {m : Machine} (h : m.WF)
    (hop : opcode_of (fetch m) = XOR) :
    do_instruction printchar m =
      .ok ⟨⟨m.memory, assign (bump m.registers) (reg1_of (fetch m))
        (bump m.registers (reg2_of (fetch m)) ^^^ bump m.registers (reg3_of (fetch m)))⟩, [], 0⟩ := by
  unfold do_instruction
  rw [fetch_ok h]
  simp only [bind, Except.bind, hop]
  rfl

theorem do_instruction_NOR (printchar : Int → List Nat) {m : Machine} (h : m.WF)
    (hop : opcode_of (fetch m) = NOR) :
    do_instruction printchar m =
      .ok ⟨⟨m.memory, assign (bump m.registers) (reg1_of (fetch m))
        (bump m.registers (reg2_of (fetch m)) ||| bump m.registers (reg3_of (fetch m)))⟩, [], 0⟩ := by
  unfold do_instruction
  rw [fetch_ok h]
  simp only [bind, Except.bind, hop]
  rfl

theorem do_instruction_MSO (printchar : Int → List Nat) {m : Machine} (h : m.WF)
    (hop : opcode_of (fetch m) = MSO) :
    do_instruction printchar m =
      if bump m.registers (reg2_of (fetch m)) + bump m.registers (reg3_of (fetch m)) < AVAILABLE_RAM then
        .ok ⟨⟨m.memory, assign (bump m.registers) (reg1_of (fetch m)) ((m.memory (bump m.registers (reg2_of (fetch m)) + bump m.registers (reg3_of (fetch m)))) &&& 0xff)⟩, [],
          check_halt (u16
            (assign (bump m.registers) (reg1_of (fetch m)) ((m.memory (bump m.registers (reg2_of (fetch m)) + bump m.registers (reg3_of (fetch m)))) &&& 0xff) (reg2_of (fetch m)) +
              assign (bump m.registers) (reg1_of (fetch m)) ((m.memory (bump m.registers (reg2_of (fetch m)) + bump m.registers (reg3_of (fetch m)))) &&& 0xff) (reg3_of (fetch m))))⟩
      else .error .outOfBounds := by
  have key : do_instruction printchar m =
      Except.bind (mem_read m.memory (bump m.registers (reg2_of (fetch m)) + bump m.registers (reg3_of (fetch m)))) fun v =>
        .ok ⟨⟨m.memory, assign (bump m.registers) (reg1_of (fetch m)) (v &&& 0xff)⟩, [],
          check_halt (u16 (assign (bump m.registers) (reg1_of (fetch m)) (v &&& 0xff) (reg2_of (fetch m)) +
            assign (bump m.registers) (reg1_of (fetch m)) (v &&& 0xff) (reg3_of (fetch m))))⟩ := by
    unfold do_instruction
    rw [fetch_ok h]
    simp only [bind, Except.bind, hop]
    rfl
  rw [key]
  unfold mem_read
  split <;> rfl

theorem do_instruction_LSO (printchar : Int → List Nat) {m : Machine} (h : m.WF)
    (hop : opcode_of (fetch m) = LSO) :
    do_instruction printchar m =
      if bump m.registers (reg2_of (fetch m)) + bump m.registers (reg3_of (fetch m)) < AVAILABLE_RAM then
        .ok ⟨⟨m.memory, assign (bump m.registers) (reg1_of (fetch m)) (((m.memory (bump m.registers (reg2_of (fetch m)) + bump m.registers (reg3_of (fetch m)))) &&& 0xff00) >>> 8)⟩, [],
          check_halt (u16
            (assign (bump m.registers) (reg1_of (fetch m)) (((m.memory (bump m.registers (reg2_of (fetch m)) + bump m.registers (reg3_of (fetch m)))) &&& 0xff00) >>> 8) (reg2_of (fetch m)) +
              assign (bump m.registers) (reg1_of (fetch m)) (((m.memory (bump m.registers (reg2_of (fetch m)) + bump m.registers (reg3_of (fetch m)))) &&& 0xff00) >>> 8) (reg3_of (fetch m))))⟩
      else .error .outOfBounds := by
  have key : do_instruction printchar m =
      Except.bind (mem_read m.memory (bump m.registers (reg2_of (fetch m)) + bump m.registers (reg3_of (fetch m)))) fun v =>
        .ok ⟨⟨m.memory, assign (bump m.registers) (reg1_of (fetch m)) ((v &&& 0xff00) >>> 8)⟩, [],
          check_halt (u16 (assign (bump m.registers) (reg1_of (fetch m)) ((v &&& 0xff00) >>> 8) (reg2_of (fetch m)) +
            assign (bump m.registers) (reg1_of (fetch m)) ((v &&& 0xff00) >>> 8) (reg3_of (fetch m))))⟩ := by
    unfold do_instruction
    rw [fetch_ok h]
    simp only [bind, Except.bind, hop]
    rfl
  rw [key]
  unfold mem_read
  split <;> rfl

theorem do_instruction_UOCT (printchar : Int → List Nat) {m : Machine} (h : m.WF)
    (hop : opcode_of (fetch m) = UOCT) :
    do_instruction printchar m =
      .ok ⟨⟨m.memory, assign (bump m.registers) (reg1_of (fetch m))
        ((bump m.registers (reg1_of (fetch m)) &&& 0xff) ||| (fetch m &&& 0xff00))⟩, [], 0⟩ := by
  unfold do_instruction
  rw [fetch_ok h]
  simp only [bind, Except.bind, hop]
  rfl

/-! ## C1: STORE to the halt port -/

/-- A STORE whose un-wrapped address `registers[A] + registers[B]` is the halt port returns
255. -/
theorem store_halt_in_range (printchar : Int → List Nat) (m : Machine) (h : m.WF)
    (hop : opcode_of (fetch m) = STORE)
    (haddr : bump m.registers (reg1_of (fetch m)) + bump m.registers (reg2_of (fetch m)) = MMIO_HALT) :
    ∃ o, do_instruction printchar m = .ok o ∧ o.rv = 255 := by
  rw [do_instruction_STORE printchar h hop, haddr]
  exact ⟨_, rfl, rfl⟩

/-- C1 (failing input): for the STORE of `storeWrapState` the 16-bit effective address
`(0xFFFF + 0xFFFB) mod 65536` is the halt port `0xFFFA`, but `memory[registers[A] + registers[B]]`
is indexed with the un-wrapped sum `0x1FFFA`, outside `memory[0x10000]`: `do_instruction` has no
defined result, so it does not return 255, and the run does not reach `quit(0)`. -/
theorem C1_store_halt_wrapped_sum_out_of_bounds :
    opcode_of (fetch storeWrapState) = STORE ∧
    u16 (bump storeWrapState.registers (reg1_of (fetch storeWrapState)) +
      bump storeWrapState.registers (reg2_of (fetch storeWrapState))) = MMIO_HALT ∧
    bump storeWrapState.registers (reg1_of (fetch storeWrapState)) +
      bump storeWrapState.registers (reg2_of (fetch storeWrapState)) = 0x1FFFA ∧
    do_instruction Unix.printchar storeWrapState = .error .outOfBounds ∧
    main_run Unix.printchar (fun _ => 0) 1 storeWrapState = .error .outOfBounds :=
  ⟨rfl, rfl, rfl, rfl, rfl⟩

/-! ## C2: load-type instructions and the halt port -/

/-- C2 (failing input): the LOAD of `loadAliasState` has A = B; it reads its operand from
`memory[0xFFFA + 0]`, the halt port, yet returns 0, because `check_halt` is applied to the
register values after the destination was overwritten with the loaded word. -/
theorem C2_load_halt_alias_returns_zero :
    opcode_of (fetch loadAliasState) = LOAD ∧
    u16 (bump loadAliasState.registers (reg2_of (fetch loadAliasState)) +
      bump loadAliasState.registers (reg3_of (fetch loadAliasState))) = MMIO_HALT ∧
    ∃ o, do_instruction Unix.printchar loadAliasState = .ok o ∧ o.rv = 0 ∧
      o.machine.registers 1 = 0 :=
  ⟨rfl, rfl, _, rfl, rfl, rfl⟩

/-! ## C3: BRANCH -/

/-- C3: a BRANCH instruction returns 0 and leaves in PC the value of `registers[dest]` when
`(registers[srcA] & C) == C` for the literal mask field `C`, and `(old PC + 1) mod 65536`
otherwise, the register values being those after the PC increment; with mask 0 the branch is
always taken. -/
theorem C3_branch_sets_pc (printchar : Int → List Nat) (m : Machine) (h : m.WF)
    (hop : opcode_of (fetch m) = BRANCH) :
    ∃ o, do_instruction printchar m = .ok o ∧ o.rv = 0 ∧
      o.machine.registers 15 =
        (if bump m.registers (reg2_of (fetch m)) &&& reg3_of (fetch m) = reg3_of (fetch m) then
          bump m.registers (reg1_of (fetch m))
        else (m.registers 15 + 1) % 65536) ∧
      (reg3_of (fetch m) = 0 → o.machine.registers 15 = bump m.registers (reg1_of (fetch m))) := by
  rw [do_instruction_BRANCH printchar h hop]
  refine ⟨_, rfl, rfl, ?_, ?_⟩
  · show (ite _ _ _ : Nat → Nat) 15 = _
    split
    · simp [assign]
    · simp [bump, assign, u16]
  · intro h0
    simp [h0, assign]

/-- C3 at the inputs the claim names: with `registers[srcA] = 0b0110`, mask `0b0010` jumps to
`registers[dest] = 0x1234` and mask `0b1000` falls through to PC = 1. -/
theorem C3_branch_sets_pc_witness :
    ((branchState 0b0010).WF ∧ opcode_of (fetch (branchState 0b0010)) = BRANCH ∧
      ∃ o, do_instruction Unix.printchar (branchState 0b0010) = .ok o ∧
        o.machine.registers 15 = 0x1234) ∧
    ((branchState 0b1000).WF ∧ opcode_of (fetch (branchState 0b1000)) = BRANCH ∧
      ∃ o, do_instruction Unix.printchar (branchState 0b1000) = .ok o ∧
        o.machine.registers 15 = 1) := by
  refine ⟨⟨branchState_wf _ (by decide), rfl, ?_⟩, ⟨branchState_wf _ (by decide), rfl, ?_⟩⟩
  · obtain ⟨o, h1, _, h3, _⟩ :=
      C3_branch_sets_pc Unix.printchar (branchState 0b0010) (branchState_wf _ (by decide)) rfl
    exact ⟨o, h1, by rw [h3]; rfl⟩
  · obtain ⟨o, h1, _, h3, _⟩ :=
      C3_branch_sets_pc Unix.printchar (branchState 0b1000) (branchState_wf _ (by decide)) rfl
    exact ⟨o, h1, by rw [h3]; rfl⟩

/-! ## C4: UOCT -/

/-- C4 (failing input): UOCT with A = 0 and immediate `0x12` on `registers[0] = 0x00AB` leaves
`registers[0] = 0xF0AB`: the low byte is kept, but the high byte is `0xF0`, the high byte of the
instruction word itself (opcode and field A), not the immediate `0x12`. -/
theorem C4_uoct_high_byte_is_not_immediate :
    opcode_of (fetch uoctState) = UOCT ∧ reg1_of (fetch uoctState) = 0 ∧
    fetch uoctState &&& 0xff = 0x12 ∧
    ∃ o, do_instruction Unix.printchar uoctState = .ok o ∧
      o.machine.registers 0 = 0xF0AB ∧ o.machine.registers 0 / 256 = 0xF0 ∧
      o.machine.registers 0 % 256 = 0xAB :=
  ⟨rfl, rfl, rfl, _, rfl, rfl, rfl, rfl⟩

/-! ## C5: size check of the loader -/

/-- The status of `load_program` for a file that opens: 2 exactly when its length in bytes
exceeds 65530. -/
theorem load_program_status (bytes : List Nat) (memory : Nat → Nat) (h : bytes.length < 2 ^ 32) :
    (load_program (some bytes) memory).1 = if bytes.length > 65530 then 2 else 0 := by
  have e : bytes.length % 2 ^ 32 = bytes.length := Nat.mod_eq_of_lt h
  have hcap : AVAILABLE_RAM - MMIO_SIZE = 65530 := rfl
  simp only [load_program, e, hcap]
  split <;> rfl

/-- C5 (failing input): an image of 65530 words (131060 bytes), which the claim says is
accepted, is rejected with status 2, because the byte length that `ftell` reports is compared
with the capacity in words. -/
theorem C5_load_program_rejects_boundary_image :
    (load_program (some (List.replicate 131060 0)) (fun _ => 0)).1 = 2 := by
  have hlen : (List.replicate 131060 (0 : Nat)).length = 131060 := List.length_replicate _ _
  rw [load_program_status _ _ (by rw [hlen]; decide), hlen]
  rfl

/-! ## C6: ADD -/

/-- C6: an ADD instruction returns 0 and leaves in `registers[A]` the value
`(registers[B] + registers[C]) mod 65536`, the sources being the register contents after the PC
increment and before the write. -/
theorem C6_add_wraps (printchar : Int → List Nat) (m : Machine) (h : m.WF)
    (hop : opcode_of (fetch m) = ADD) :
    ∃ o, do_instruction printchar m = .ok o ∧ o.rv = 0 ∧
      o.machine.registers (reg1_of (fetch m)) =
        (bump m.registers (reg2_of (fetch m)) + bump m.registers (reg3_of (fetch m))) % 65536 := by
  rw [do_instruction_ADD printchar h hop]
  exact ⟨_, rfl, rfl, assign_same _ _ _⟩

/-- C6 at `addState`: `0xFFFF + 3` wraps to `2`. -/
theorem C6_add_wraps_witness :
    addState.WF ∧ opcode_of (fetch addState) = ADD ∧
    ∃ o, do_instruction Unix.printchar addState = .ok o ∧ o.machine.registers 0 = 2 := by
  obtain ⟨o, h1, _, h3⟩ := C6_add_wraps Unix.printchar addState addState_wf rfl
  exact ⟨addState_wf, rfl, o, h1, by rw [show (0 : Nat) = reg1_of (fetch addState) from rfl, h3]; rfl⟩

/-! ## C8: the character filter of the unix `printchar` -/

/-- C8: for every value `c`, the unix `printchar(c)` emits exactly the byte `c` when
`32 <= c <= 126` or `c == 10`, exactly the byte 8 (backspace) when `c == 127`, and nothing for
every other value. -/
theorem C8_unix_printchar_filter (c : Nat) :
    Unix.printchar (c : Int) =
      if (32 ≤ c ∧ c ≤ 126) ∨ c = 10 then [c] else if c = 127 then [8] else [] := by
  unfold Unix.printchar putchar
  by_cases h1 : 32 ≤ c ∧ c ≤ 126
  · have a1 : (c : Int) > 31 ∧ (c : Int) < 127 := by omega
    have a2 : ¬ (c : Int) = 10 := by omega
    have a3 : ¬ (c : Int) = 127 := by omega
    have a4 : ((c : Int) % 256).toNat = c := by omega
    rw [if_pos a1, if_neg a2, if_neg a3, if_pos (Or.inl h1), a4]
    rfl
  · have a1 : ¬ ((c : Int) > 31 ∧ (c : Int) < 127) := by omega
    rw [if_neg a1]
    by_cases h2 : c = 10
    · subst h2
      rfl
    · have a2 : ¬ (c : Int) = 10 := by omega
      have a5 : ¬ ((32 ≤ c ∧ c ≤ 126) ∨ c = 10) := by omega
      rw [if_neg a2, if_neg a5]
      by_cases h3 : c = 127
      · subst h3
        rfl
      · have a3 : ¬ (c : Int) = 127 := by omega
        rw [if_neg a3, if_neg h3]
        rfl

/-! ## C9: carry of CMPA -/

/-- C9: after a CMPA instruction the carry bit (bit 3) of `registers[A]` is 1 exactly when the
true sum `registers[B] + registers[C]` is at least 65536, the sources being the register contents
after the PC increment; the test `candidate < registers[B] or candidate < registers[C]` on the
wrapped sum holds in exactly those states. -/
theorem C9_cmpa_carry_iff_wraparound (printchar : Int → List Nat) (m : Machine) (h : m.WF)
    (hop : opcode_of (fetch m) = CMPA) :
    ∃ o, do_instruction printchar m = .ok o ∧ o.rv = 0 ∧
      ((o.machine.registers (reg1_of (fetch m))).testBit 3 = true ↔
        65536 ≤ bump m.registers (reg2_of (fetch m)) + bump m.registers (reg3_of (fetch m))) ∧
      ((u16 (bump m.registers (reg2_of (fetch m)) + bump m.registers (reg3_of (fetch m))) <
            bump m.registers (reg2_of (fetch m)) ∨
          u16 (bump m.registers (reg2_of (fetch m)) + bump m.registers (reg3_of (fetch m))) <
            bump m.registers (reg3_of (fetch m))) ↔
        65536 ≤ bump m.registers (reg2_of (fetch m)) + bump m.registers (reg3_of (fetch m))) := by
  have h2 := bump_lt h (reg2_of_lt (fetch m))
  have h3 := bump_lt h (reg3_of_lt (fetch m))
  have hiff : (u16 (bump m.registers (reg2_of (fetch m)) + bump m.registers (reg3_of (fetch m))) <
            bump m.registers (reg2_of (fetch m)) ∨
          u16 (bump m.registers (reg2_of (fetch m)) + bump m.registers (reg3_of (fetch m))) <
            bump m.registers (reg3_of (fetch m))) ↔
        65536 ≤ bump m.registers (reg2_of (fetch m)) + bump m.registers (reg3_of (fetch m)) := by
    unfold u16
    omega
  rw [do_instruction_CMPA printchar h hop]
  refine ⟨_, rfl, rfl, ?_, hiff⟩
  show (assign _ _ _ _).testBit 3 = true ↔ _
  rw [assign_same, compare_testBit_carry, decide_eq_true_iff]
  exact hiff

/-- C9 at `cmpaState`: `0xFFFF + 1` wraps, and CMPA sets the carry bit of `registers[0]`. -/
theorem C9_cmpa_carry_iff_wraparound_witness :
    cmpaState.WF ∧ opcode_of (fetch cmpaState) = CMPA ∧
    ∃ o, do_instruction Unix.printchar cmpaState = .ok o ∧
      (o.machine.registers 0).testBit 3 = true := by
  obtain ⟨o, h1, _, h3, _⟩ :=
    C9_cmpa_carry_iff_wraparound Unix.printchar cmpaState cmpaState_wf rfl
  exact ⟨cmpaState_wf, rfl, o, h1, h3.mpr (by decide)⟩

/-! ## C10: carry of CMPS -/

/-- C10 (counterexample): CMPS on `registers[B] = 5`, `registers[C] = 3` sets the carry bit of
`registers[A]` although `5 - 3` does not wrap around. -/
theorem C10_cmps_carry_without_borrow :
    opcode_of (fetch cmpsState) = CMPS ∧
    ∃ o, do_instruction Unix.printchar cmpsState = .ok o ∧
      ¬ ((o.machine.registers (reg1_of (fetch cmpsState))).testBit 3 = true ↔
        bump cmpsState.registers (reg2_of (fetch cmpsState)) <
          bump cmpsState.registers (reg3_of (fetch cmpsState))) :=
  ⟨rfl, _, rfl, by decide⟩

/-- C10 (amended): after a CMPS instruction the carry bit (bit 3) of `registers[A]` is 1 exactly
when `candidate < registers[B]` or `candidate < registers[C]` for
`candidate = (registers[B] - registers[C]) mod 65536`, that is, exactly when
`registers[C] != 0` and `registers[B] >= registers[C]`, or `registers[B] < registers[C]` and
`registers[B] + 65536 < 2 * registers[C]`. -/
theorem C10_cmps_carry_is_candidate_test (printchar : Int → List Nat) (m : Machine) (h : m.WF)
    (hop : opcode_of (fetch m) = CMPS) :
    ∃ o, do_instruction printchar m = .ok o ∧ o.rv = 0 ∧
      ((o.machine.registers (reg1_of (fetch m))).testBit 3 = true ↔
        (u16_of_int ((bump m.registers (reg2_of (fetch m)) : Int) - bump m.registers (reg3_of (fetch m))) <
            bump m.registers (reg2_of (fetch m)) ∨
          u16_of_int ((bump m.registers (reg2_of (fetch m)) : Int) - bump m.registers (reg3_of (fetch m))) <
            bump m.registers (reg3_of (fetch m)))) ∧
      ((o.machine.registers (reg1_of (fetch m))).testBit 3 = true ↔
        (bump m.registers (reg3_of (fetch m)) ≠ 0 ∧
            bump m.registers (reg3_of (fetch m)) ≤ bump m.registers (reg2_of (fetch m))) ∨
          (bump m.registers (reg2_of (fetch m)) < bump m.registers (reg3_of (fetch m)) ∧
            bump m.registers (reg2_of (fetch m)) + 65536 < 2 * bump m.registers (reg3_of (fetch m)))) := by
  have h2 := bump_lt h (reg2_of_lt (fetch m))
  have h3 := bump_lt h (reg3_of_lt (fetch m))
  rw [do_instruction_CMPS printchar h hop]
  refine ⟨_, rfl, rfl, ?_, ?_⟩
  · show (assign _ _ _ _).testBit 3 = true ↔ _
    rw [assign_same, compare_testBit_carry, decide_eq_true_iff]
  · show (assign _ _ _ _).testBit 3 = true ↔ _
    rw [assign_same, compare_testBit_carry, decide_eq_true_iff]
    unfold u16_of_int
    omega

/-- C10 (amended) at `cmpsState`: `5 - 3 = 2 < 5`, so CMPS sets the carry bit of
`registers[0]`. -/
theorem C10_cmps_carry_is_candidate_test_witness :
    cmpsState.WF ∧ opcode_of (fetch cmpsState) = CMPS ∧
    ∃ o, do_instruction Unix.printchar cmpsState = .ok o ∧
      (o.machine.registers 0).testBit 3 = true := by
  obtain ⟨o, h1, _, _, h4⟩ :=
    C10_cmps_carry_is_candidate_test Unix.printchar cmpsState cmpsState_wf rfl
  exact ⟨cmpsState_wf, rfl, o, h1, h4.mpr (Or.inl (by decide))⟩

/-! ## Bits of the result of `compare` -/

/-- Bit 15 of a `uint16_t` is set exactly when the value is at least `0x8000`. -/
theorem testBit_15_iff {x : Nat} (h : x < 65536) : x.testBit 15 = decide (32768 ≤ x) := by
  rw [Nat.testBit_to_div_mod]
  congr 1
  apply propext
  constructor <;> intro h1 <;> omega

/-- The `int16_t` reading of the exclusive or of two `uint16_t` values is negative exactly when
the two values have different sign bits. -/
theorem int16_xor_neg {a b : Nat} (ha : a < 65536) (hb : b < 65536) :
    int16 (a ^^^ b) < 0 ↔ ¬ (a < 32768 ↔ b < 32768) := by
  have hx : a ^^^ b < 65536 := Nat.xor_lt_two_pow (n := 16) ha hb
  have hbit : (a ^^^ b).testBit 15 = xor (a.testBit 15) (b.testBit 15) := Nat.testBit_xor a b 15
  rw [testBit_15_iff hx, testBit_15_iff ha, testBit_15_iff hb] at hbit
  have hm : (a ^^^ b) % 65536 = a ^^^ b := Nat.mod_eq_of_lt hx
  unfold int16
  rw [hm]
  by_cases h1 : 32768 ≤ a ^^^ b <;> by_cases h2 : 32768 ≤ a <;> by_cases h3 : 32768 ≤ b <;>
    simp [h1, h2, h3] at hbit <;> split <;> omega

/-- Bit 2 of the result of `compare` is the outcome of its overflow test. -/
theorem compare_testBit_overflow (registers : Nat → Nat) (cmp_temp r1 r2 r3 : Nat) :
    (compare registers cmp_temp r1 r2 r3).testBit 2 =
      decide (int16 (registers r2 ^^^ registers r3) ≥ 0 ∧ int16 (registers r2 ^^^ cmp_temp) < 0) := by
  have e1 : Nat.testBit 4 2 = true := by decide
  have e3 : Nat.testBit 2 2 = false := by decide
  have e4 : Nat.testBit 1 2 = false := by decide
  have e6 : Nat.testBit 65531 2 = false := by decide
  have e7 : Nat.testBit 65533 2 = true := by decide
  have e8 : Nat.testBit 65534 2 = true := by decide
  unfold compare
  simp only []
  by_cases hc : int16 (registers r2 ^^^ registers r3) ≥ 0 ∧ int16 (registers r2 ^^^ cmp_temp) < 0
  · simp only [if_pos hc]
    split_ifs <;> simp [Nat.testBit_or, Nat.testBit_and, e1, e3, e4, e6, e7, e8, hc]
  · simp only [if_neg hc]
    split_ifs <;> simp [Nat.testBit_or, Nat.testBit_and, e1, e3, e4, e6, e7, e8, hc]

/-- The test `cmp_temp & 0x8000` of `compare` reads bit 15. -/
theorem and_0x8000_ne_zero (x : Nat) : x &&& 0x8000 ≠ 0 ↔ x.testBit 15 = true := by
  constructor
  · intro h
    by_contra hb
    apply h
    apply Nat.eq_of_testBit_eq
    intro i
    rw [Nat.testBit_and, Nat.zero_testBit]
    by_cases hi : i = 15
    · subst hi
      simp [hb]
    · have : Nat.testBit 0x8000 i = false := by
        have := @Nat.testBit_two_pow_of_ne 15 i (fun h => hi h.symm)
        simpa using this
      simp [this]
  · intro hb h
    have : (x &&& 0x8000).testBit 15 = true := by
      rw [Nat.testBit_and, hb]
      decide
    rw [h, Nat.zero_testBit] at this
    exact Bool.false_ne_true this

/-- Bit 1 of the result of `compare` is bit 15 of the candidate. -/
theorem compare_testBit_negative (registers : Nat → Nat) (cmp_temp r1 r2 r3 : Nat) :
    (compare registers cmp_temp r1 r2 r3).testBit 1 = cmp_temp.testBit 15 := by
  have e1 : Nat.testBit 2 1 = true := by decide
  have e4 : Nat.testBit 1 1 = false := by decide
  have e7 : Nat.testBit 65533 1 = false := by decide
  have e8 : Nat.testBit 65534 1 = true := by decide
  unfold compare
  simp only []
  by_cases hc : cmp_temp &&& 0x8000 ≠ 0
  · have hb := (and_0x8000_ne_zero cmp_temp).mp hc
    simp only [if_pos hc]
    split_ifs <;> simp [Nat.testBit_or, Nat.testBit_and, e1, e4, e7, e8, hb]
  · have hb : cmp_temp.testBit 15 = false := by
      by_contra h
      exact hc ((and_0x8000_ne_zero cmp_temp).mpr (by simpa using h))
    simp only [if_neg hc]
    split_ifs <;> simp [Nat.testBit_or, Nat.testBit_and, e1, e4, e7, e8, hb]

/-- Bit 0 of the result of `compare` tells whether the candidate is zero. -/
theorem compare_testBit_zero (registers : Nat → Nat) (cmp_temp r1 r2 r3 : Nat) :
    (compare registers cmp_temp r1 r2 r3).testBit 0 = decide (cmp_temp = 0) := by
  have e1 : Nat.testBit 1 0 = true := by decide
  have e8 : Nat.testBit 65534 0 = false := by decide
  unfold compare
  simp only []
  by_cases hc : cmp_temp = 0
  · simp only [if_pos hc]
    simp [Nat.testBit_or, e1, hc]
  · simp only [if_neg hc]
    simp [Nat.testBit_and, e8, hc]

/-- The flag updates of `compare` keep bits 4 to 15 of the word they start from. -/
theorem compare_keeps_upper_bits (registers : Nat → Nat) (cmp_temp r1 r2 r3 : Nat) :
    compare registers cmp_temp r1 r2 r3 &&& 0xFFF0 = registers r1 &&& 0xFFF0 := by
  have hor : ∀ x k : Nat, k &&& 0xFFF0 = 0 → (x ||| k) &&& 0xFFF0 = x &&& 0xFFF0 := by
    intro x k hk
    apply Nat.eq_of_testBit_eq
    intro i
    have hki : (k.testBit i && Nat.testBit 0xFFF0 i) = false := by
      rw [← Nat.testBit_and, hk, Nat.zero_testBit]
    rw [Nat.testBit_and, Nat.testBit_or, Nat.testBit_and]
    revert hki
    cases x.testBit i <;> cases k.testBit i <;> cases Nat.testBit 0xFFF0 i <;> simp
  have hand : ∀ x k : Nat, k &&& 0xFFF0 = 0xFFF0 → (x &&& k) &&& 0xFFF0 = x &&& 0xFFF0 := by
    intro x k hk
    rw [Nat.and_assoc, hk]
  unfold compare
  simp only []
  split_ifs <;>
    simp only [hor _ 8 (by decide), hor _ 4 (by decide), hor _ 2 (by decide), hor _ 1 (by decide),
      hand _ 65527 (by decide), hand _ 65531 (by decide), hand _ 65533 (by decide),
      hand _ 65534 (by decide)]

/-- The result of `compare` is a `uint16_t` when the destination register holds one. -/
theorem compare_lt (registers : Nat → Nat) (cmp_temp r1 r2 r3 : Nat) (h : registers r1 < 65536) :
    compare registers cmp_temp r1 r2 r3 < 65536 := by
  have hor : ∀ x k : Nat, x < 65536 → k < 65536 → x ||| k < 65536 :=
    fun x k hx hk => Nat.or_lt_two_pow (n := 16) hx hk
  have hand : ∀ x k : Nat, x < 65536 → x &&& k < 65536 :=
    fun x k hx => Nat.lt_of_le_of_lt Nat.and_le_left hx
  unfold compare
  simp only []
  split_ifs <;> repeat (first | exact h | apply hand | refine hor _ _ ?_ (by decide))

theorem oneInstr_wf {instruction a b c : Nat} (hi : instruction < 65536) (ha : a < 65536)
    (hb : b < 65536) (hc : c < 65536) : (oneInstr instruction a b c).WF := by
  apply wf_of_bounds
  · intro addr; simp only [oneInstr]; split <;> omega
  · intro r; simp only [oneInstr]; split_ifs <;> omega


/-! ## C11: overflow of CMPA -/

/-- C11: after a CMPA instruction the overflow bit (bit 2) of `registers[A]` is 1 exactly when
the sum of `registers[B]` and `registers[C]`, both read as signed 16-bit integers, lies outside
`[-32768, 32767]`; and exactly when the two sources have the same sign and the sign of the 16-bit
result differs from the sign of `registers[B]`.  The sources are the register contents after the
PC increment and before the write. -/
theorem C11_cmpa_overflow_iff_signed_overflow (printchar : Int → List Nat) (m : Machine)
    (h : m.WF) (hop : opcode_of (fetch m) = CMPA) :
    ∃ o, do_instruction printchar m = .ok o ∧ o.rv = 0 ∧
      ((o.machine.registers (reg1_of (fetch m))).testBit 2 = true ↔
        (int16 (bump m.registers (reg2_of (fetch m))) + int16 (bump m.registers (reg3_of (fetch m)))
            < -32768 ∨
          32767 < int16 (bump m.registers (reg2_of (fetch m))) +
            int16 (bump m.registers (reg3_of (fetch m))))) ∧
      ((o.machine.registers (reg1_of (fetch m))).testBit 2 = true ↔
        ((bump m.registers (reg2_of (fetch m)) < 32768 ↔
            bump m.registers (reg3_of (fetch m)) < 32768) ∧
          ¬ ((bump m.registers (reg2_of (fetch m)) + bump m.registers (reg3_of (fetch m))) % 65536
              < 32768 ↔ bump m.registers (reg2_of (fetch m)) < 32768))) := by
  have h2 := bump_lt h (reg2_of_lt (fetch m))
  have h3 := bump_lt h (reg3_of_lt (fetch m))
  have hc : u16 (bump m.registers (reg2_of (fetch m)) + bump m.registers (reg3_of (fetch m))) < 65536 :=
    Nat.mod_lt _ (by decide)
  have hx1 := int16_xor_neg h2 h3
  have hx2 := int16_xor_neg h2 hc
  have hbit : ∀ o : Outcome,
      o.machine.registers (reg1_of (fetch m)) =
        compare (bump m.registers)
          (u16 (bump m.registers (reg2_of (fetch m)) + bump m.registers (reg3_of (fetch m))))
          (reg1_of (fetch m)) (reg2_of (fetch m)) (reg3_of (fetch m)) →
      ((o.machine.registers (reg1_of (fetch m))).testBit 2 = true ↔
        ((bump m.registers (reg2_of (fetch m)) < 32768 ↔
            bump m.registers (reg3_of (fetch m)) < 32768) ∧
          ¬ ((bump m.registers (reg2_of (fetch m)) + bump m.registers (reg3_of (fetch m))) % 65536
              < 32768 ↔ bump m.registers (reg2_of (fetch m)) < 32768))) := by
    intro o ho
    rw [ho, compare_testBit_overflow, decide_eq_true_iff, ge_iff_le, ← not_lt, hx1, hx2]
    unfold u16
    constructor
    · rintro ⟨a, b⟩
      exact ⟨not_not.mp a, fun hh => b hh.symm⟩
    · rintro ⟨a, b⟩
      exact ⟨not_not.mpr a, fun hh => b hh.symm⟩
  rw [do_instruction_CMPA printchar h hop]
  refine ⟨_, rfl, rfl, ?_, hbit _ (assign_same _ _ _)⟩
  rw [hbit _ (assign_same _ _ _)]
  unfold int16
  rw [Nat.mod_eq_of_lt h2, Nat.mod_eq_of_lt h3]
  split_ifs <;> omega

/-- C11 at `oneInstr 0x5012 0x7FFF 1 0`: `32767 + 1` overflows the signed range, and CMPA sets
the overflow bit of `registers[0]`. -/
theorem C11_cmpa_overflow_iff_signed_overflow_witness :
    (oneInstr 0x5012 0x7FFF 1 0).WF ∧ opcode_of (fetch (oneInstr 0x5012 0x7FFF 1 0)) = CMPA ∧
    ∃ o, do_instruction Unix.printchar (oneInstr 0x5012 0x7FFF 1 0) = .ok o ∧
      (o.machine.registers 0).testBit 2 = true := by
  have hwf : (oneInstr 0x5012 0x7FFF 1 0).WF := oneInstr_wf (by decide) (by decide) (by decide) (by decide)
  obtain ⟨o, h1, _, h3, _⟩ :=
    C11_cmpa_overflow_iff_signed_overflow Unix.printchar (oneInstr 0x5012 0x7FFF 1 0) hwf rfl
  exact ⟨hwf, rfl, o, h1, h3.mpr (Or.inr (by decide))⟩

/-! ## C12: zero and negative flags -/

/-- C12: the zero and negative bits of the result of `compare` depend on the candidate alone:
bit 0 is 1 exactly when the candidate is 0, and bit 1 equals bit 15 of the candidate, whatever
the register file and the register indices are; for the candidate 0 the result has
`compare(...) & 0b0001 == 1`. -/
theorem C12_compare_zero_negative_bits (registers : Nat → Nat) (cmp_temp r1 r2 r3 : Nat) :
    ((compare registers cmp_temp r1 r2 r3).testBit 0 = true ↔ cmp_temp = 0) ∧
    (compare registers cmp_temp r1 r2 r3).testBit 1 = cmp_temp.testBit 15 ∧
    (∀ (registers2 : Nat → Nat) (s1 s2 s3 : Nat),
      (compare registers2 cmp_temp s1 s2 s3).testBit 0 =
          (compare registers cmp_temp r1 r2 r3).testBit 0 ∧
        (compare registers2 cmp_temp s1 s2 s3).testBit 1 =
          (compare registers cmp_temp r1 r2 r3).testBit 1) ∧
    compare registers 0 r1 r2 r3 &&& 0b0001 = 1 := by
  refine ⟨?_, compare_testBit_negative _ _ _ _ _, ?_, ?_⟩
  · rw [compare_testBit_zero, decide_eq_true_iff]
  · intro registers2 s1 s2 s3
    rw [compare_testBit_zero, compare_testBit_zero, compare_testBit_negative,
      compare_testBit_negative]
    exact ⟨rfl, rfl⟩
  · have hz : (compare registers 0 r1 r2 r3).testBit 0 = true := by
      rw [compare_testBit_zero]
      rfl
    rw [Nat.testBit_to_div_mod] at hz
    have hm : compare registers 0 r1 r2 r3 % 2 = 1 := by simpa using hz
    have hand := Nat.and_pow_two_sub_one_eq_mod (compare registers 0 r1 r2 r3) 1
    rw [show (0b0001 : Nat) = 2 ^ 1 - 1 from rfl, hand]
    exact hm

/-! ## C16: the upper twelve bits -/

/-- C16: `compare(candidate, dest, srcA, srcB) & 0xFFF0 == registers[dest] & 0xFFF0` for every
candidate, register file and register indices.  The function assigns only to its local
`flags_temp`; it is embedded as a function from the register file to the flag word, so that a
call leaves every register and every memory word as it was. -/
theorem C16_compare_keeps_upper_twelve_bits (registers : Nat → Nat) (cmp_temp r1 r2 r3 : Nat) :
    compare registers cmp_temp r1 r2 r3 &&& 0xFFF0 = registers r1 &&& 0xFFF0 :=
  compare_keeps_upper_bits registers cmp_temp r1 r2 r3

/-! ## The shape of a completed step -/

theorem check_halt_cases (address : Nat) : check_halt address = 0 ∨ check_halt address = 255 := by
  unfold check_halt
  split <;> simp

theorem u16_lt (n : Nat) : u16 n < 65536 := Nat.mod_lt _ (by decide)

theorem u16_of_int_lt (z : Int) : u16_of_int z < 65536 := by
  unfold u16_of_int
  omega

theorem assign_lt {arr : Nat → Nat} {i v : Nat} (harr : ∀ r, r < 16 → arr r < 65536)
    (hv : v < 65536) : ∀ r, r < 16 → assign arr i v r < 65536 := by
  intro r hr
  unfold assign
  split
  · exact hv
  · exact harr r hr

/-- Every step that completes has one of three shapes: a STORE with an index inside `memory`
writes that word and no register besides PC; a BRANCH writes at most PC; every other opcode
leaves `memory` alone and writes one `uint16_t` value to `registers[A]`, returning 0 or, for the
load-type opcodes only, the value of `check_halt`. -/
theorem do_instruction_cases (printchar : Int → List Nat) {m : Machine} (h : m.WF) {o : Outcome}
    (ho : do_instruction printchar m = .ok o) :
    (opcode_of (fetch m) = STORE ∧
      bump m.registers (reg1_of (fetch m)) + bump m.registers (reg2_of (fetch m)) < AVAILABLE_RAM ∧
      o = ⟨⟨assign m.memory (bump m.registers (reg1_of (fetch m)) + bump m.registers (reg2_of (fetch m))) (bump m.registers (reg3_of (fetch m))), bump m.registers⟩,
        if bump m.registers (reg1_of (fetch m)) + bump m.registers (reg2_of (fetch m)) = MMIO_CHAROUT then printchar (bump m.registers (reg3_of (fetch m))) else [],
        check_halt (u16 (bump m.registers (reg1_of (fetch m)) + bump m.registers (reg2_of (fetch m))))⟩) ∨
    (opcode_of (fetch m) = BRANCH ∧
      o = ⟨⟨m.memory,
        if bump m.registers (reg2_of (fetch m)) &&& reg3_of (fetch m) = reg3_of (fetch m) then
          assign (bump m.registers) 15 (bump m.registers (reg1_of (fetch m)))
        else bump m.registers⟩, [], 0⟩) ∨
    (opcode_of (fetch m) ≠ STORE ∧ opcode_of (fetch m) ≠ BRANCH ∧
      ∃ v rv, v < 65536 ∧ o = ⟨⟨m.memory, assign (bump m.registers) (reg1_of (fetch m)) v⟩, [], rv⟩ ∧
        (rv = 0 ∨ (rv = 255 ∧
          (opcode_of (fetch m) = LOAD ∨ opcode_of (fetch m) = MSO ∨ opcode_of (fetch m) = LSO)))) := by
  have h1 := bump_lt h (reg1_of_lt (fetch m))
  have h2 := bump_lt h (reg2_of_lt (fetch m))
  have h3 := bump_lt h (reg3_of_lt (fetch m))
  have hrv : ∀ (a : Nat) (P : Prop), P → (check_halt a = 0 ∨ (check_halt a = 255 ∧ P)) := by
    intro a P hP
    rcases check_halt_cases a with hz | hz
    · exact Or.inl hz
    · exact Or.inr ⟨hz, hP⟩
  rcases opcode_cases (fetch m) with hop | hop | hop | hop | hop | hop | hop | hop | hop | hop | hop | hop | hop | hop | hop | hop
  · rw [do_instruction_LOCT printchar h hop] at ho
    cases ho
    refine Or.inr (Or.inr ⟨by rw [hop]; decide, by rw [hop]; decide, _, _, ?_, rfl, Or.inl rfl⟩)
    exact Nat.or_lt_two_pow (n := 16) (Nat.and_lt_two_pow _ (by decide)) (Nat.and_lt_two_pow _ (by decide))

  · rw [do_instruction_LOAD printchar h hop] at ho
    split at ho
    · rename_i hidx
      have hmem := h.1 _ hidx
      cases ho
      refine Or.inr (Or.inr ⟨by rw [hop]; decide, by rw [hop]; decide, _, _, ?_, rfl,
        hrv _ _ (Or.inl hop)⟩)
      exact hmem
    · cases ho

  · rw [do_instruction_STORE printchar h hop] at ho
    split at ho
    · rename_i hidx
      cases ho
      exact Or.inl ⟨hop, hidx, rfl⟩
    · cases ho

  · rw [do_instruction_ADD printchar h hop] at ho
    cases ho
    refine Or.inr (Or.inr ⟨by rw [hop]; decide, by rw [hop]; decide, _, _, ?_, rfl, Or.inl rfl⟩)
    exact u16_lt _

  · rw [do_instruction_SUB printchar h hop] at ho
    cases ho
    refine Or.inr (Or.inr ⟨by rw [hop]; decide, by rw [hop]; decide, _, _, ?_, rfl, Or.inl rfl⟩)
    exact u16_of_int_lt _

  · rw [do_instruction_CMPA printchar h hop] at ho
    cases ho
    refine Or.inr (Or.inr ⟨by rw [hop]; decide, by rw [hop]; decide, _, _, ?_, rfl, Or.inl rfl⟩)
    exact compare_lt _ _ _ _ _ h1

  · rw [do_instruction_CMPS printchar h hop] at ho
    cases ho
    refine Or.inr (Or.inr ⟨by rw [hop]; decide, by rw [hop]; decide, _, _, ?_, rfl, Or.inl rfl⟩)
    exact compare_lt _ _ _ _ _ h1

  · rw [do_instruction_BRANCH printchar h hop] at ho
    cases ho
    exact Or.inr (Or.inl ⟨hop, rfl⟩)

  · rw [do_instruction_SHIFT printchar h hop] at ho
    split at ho <;> split at ho
    · cases ho
      refine Or.inr (Or.inr ⟨by rw [hop]; decide, by rw [hop]; decide, _, _, ?_, rfl, Or.inl rfl⟩)
      exact u16_lt _
    · cases ho
    · cases ho
      refine Or.inr (Or.inr ⟨by rw [hop]; decide, by rw [hop]; decide, _, _, ?_, rfl, Or.inl rfl⟩)
      exact u16_lt _
    · cases ho

  · rw [do_instruction_AND printchar h hop] at ho
    cases ho
    refine Or.inr (Or.inr ⟨by rw [hop]; decide, by rw [hop]; decide, _, _, ?_, rfl, Or.inl rfl⟩)
    exact Nat.lt_of_le_of_lt Nat.and_le_left h2

  · rw [do_instruction_OR printchar h hop] at ho
    cases ho
    refine Or.inr (Or.inr ⟨by rw [hop]; decide, by rw [hop]; decide, _, _, ?_, rfl, Or.inl rfl⟩)
    exact Nat.or_lt_two_pow (n := 16) h2 h3

  · rw [do_instruction_XOR printchar h hop] at ho
    cases ho
    refine Or.inr (Or.inr ⟨by rw [hop]; decide, by rw [hop]; decide, _, _, ?_, rfl, Or.inl rfl⟩)
    exact Nat.xor_lt_two_pow (n := 16) h2 h3

  · rw [do_instruction_NOR printchar h hop] at ho
    cases ho
    refine Or.inr (Or.inr ⟨by rw [hop]; decide, by rw [hop]; decide, _, _, ?_, rfl, Or.inl rfl⟩)
    exact Nat.or_lt_two_pow (n := 16) h2 h3

  · rw [do_instruction_MSO printchar h hop] at ho
    split at ho
    · rename_i hidx
      have hmem := h.1 _ hidx
      cases ho
      refine Or.inr (Or.inr ⟨by rw [hop]; decide, by rw [hop]; decide, _, _, ?_, rfl,
        hrv _ _ (Or.inr (Or.inl hop))⟩)
      exact Nat.lt_of_le_of_lt Nat.and_le_right (by decide)
    · cases ho

  · rw [do_instruction_LSO printchar h hop] at ho
    split at ho
    · rename_i hidx
      have hmem := h.1 _ hidx
      cases ho
      refine Or.inr (Or.inr ⟨by rw [hop]; decide, by rw [hop]; decide, _, _, ?_, rfl,
        hrv _ _ (Or.inr (Or.inr hop))⟩)
      rw [Nat.shiftRight_eq_div_pow]
      exact Nat.lt_of_le_of_lt (Nat.div_le_self _ _) (Nat.lt_of_le_of_lt Nat.and_le_right (by decide))
    · cases ho

  · rw [do_instruction_UOCT printchar h hop] at ho
    cases ho
    refine Or.inr (Or.inr ⟨by rw [hop]; decide, by rw [hop]; decide, _, _, ?_, rfl, Or.inl rfl⟩)
    exact Nat.or_lt_two_pow (n := 16) (Nat.and_lt_two_pow _ (by decide)) (Nat.and_lt_two_pow _ (by decide))

/-! ## Defined and undefined steps, and the `uint16_t` invariant -/

/-- A step that is not undefined behaviour completes. -/
theorem do_instruction_completes (printchar : Int → List Nat) {m : Machine} (h : m.WF)
    (hd : ¬ undefined_step m) : ∃ o, do_instruction printchar m = .ok o := by
  have hload : (opcode_of (fetch m) = LOAD ∨ opcode_of (fetch m) = MSO ∨ opcode_of (fetch m) = LSO) →
      bump m.registers (reg2_of (fetch m)) + bump m.registers (reg3_of (fetch m)) < AVAILABLE_RAM := by
    intro hop
    by_contra hlt
    exact hd (Or.inl ⟨hop, Nat.le_of_not_lt hlt⟩)
  rcases opcode_cases (fetch m) with hop | hop | hop | hop | hop | hop | hop | hop | hop | hop |
    hop | hop | hop | hop | hop | hop
  · rw [do_instruction_LOCT printchar h hop]; exact ⟨_, rfl⟩
  · rw [do_instruction_LOAD printchar h hop, if_pos (hload (Or.inl hop))]; exact ⟨_, rfl⟩
  · have hlt : bump m.registers (reg1_of (fetch m)) + bump m.registers (reg2_of (fetch m)) <
        AVAILABLE_RAM := by
      by_contra hlt
      exact hd (Or.inr (Or.inl ⟨hop, Nat.le_of_not_lt hlt⟩))
    rw [do_instruction_STORE printchar h hop, if_pos hlt]; exact ⟨_, rfl⟩
  · rw [do_instruction_ADD printchar h hop]; exact ⟨_, rfl⟩
  · rw [do_instruction_SUB printchar h hop]; exact ⟨_, rfl⟩
  · rw [do_instruction_CMPA printchar h hop]; exact ⟨_, rfl⟩
  · rw [do_instruction_CMPS printchar h hop]; exact ⟨_, rfl⟩
  · rw [do_instruction_BRANCH printchar h hop]; exact ⟨_, rfl⟩
  · have hlt : bump m.registers (reg3_of (fetch m)) < INT_BITS := by
      by_contra hlt
      exact hd (Or.inr (Or.inr ⟨hop, Nat.le_of_not_lt hlt⟩))
    rw [do_instruction_SHIFT printchar h hop]
    simp only [if_pos hlt]
    split <;> exact ⟨_, rfl⟩
  · rw [do_instruction_AND printchar h hop]; exact ⟨_, rfl⟩
  · rw [do_instruction_OR printchar h hop]; exact ⟨_, rfl⟩
  · rw [do_instruction_XOR printchar h hop]; exact ⟨_, rfl⟩
  · rw [do_instruction_NOR printchar h hop]; exact ⟨_, rfl⟩
  · rw [do_instruction_MSO printchar h hop, if_pos (hload (Or.inr (Or.inl hop)))]; exact ⟨_, rfl⟩
  · rw [do_instruction_LSO printchar h hop, if_pos (hload (Or.inr (Or.inr hop)))]; exact ⟨_, rfl⟩
  · rw [do_instruction_UOCT printchar h hop]; exact ⟨_, rfl⟩

/-- A step that is undefined behaviour is a fault of the embedding. -/
theorem do_instruction_undefined (printchar : Int → List Nat) {m : Machine} (h : m.WF)
    (hu : undefined_step m) : ∃ e, do_instruction printchar m = .error e := by
  rcases hu with ⟨hop, hge⟩ | ⟨hop, hge⟩ | ⟨hop, hge⟩
  · rcases hop with hop | hop | hop
    · rw [do_instruction_LOAD printchar h hop, if_neg (Nat.not_lt.mpr hge)]; exact ⟨_, rfl⟩
    · rw [do_instruction_MSO printchar h hop, if_neg (Nat.not_lt.mpr hge)]; exact ⟨_, rfl⟩
    · rw [do_instruction_LSO printchar h hop, if_neg (Nat.not_lt.mpr hge)]; exact ⟨_, rfl⟩
  · rw [do_instruction_STORE printchar h hop, if_neg (Nat.not_lt.mpr hge)]; exact ⟨_, rfl⟩
  · rw [do_instruction_SHIFT printchar h hop]
    simp only [if_neg (Nat.not_lt.mpr hge)]
    split <;> exact ⟨_, rfl⟩

/-- A completed step leaves a `uint16_t` in every word of `memory` and every register. -/
theorem do_instruction_wf (printchar : Int → List Nat) {m : Machine} (h : m.WF) {o : Outcome}
    (ho : do_instruction printchar m = .ok o) : o.machine.WF := by
  have hb : ∀ r, r < 16 → bump m.registers r < 65536 := fun r hr => bump_lt h hr
  have h1 := bump_lt h (reg1_of_lt (fetch m))
  have h3 := bump_lt h (reg3_of_lt (fetch m))
  rcases do_instruction_cases printchar h ho with ⟨_, _, rfl⟩ | ⟨_, rfl⟩ | ⟨_, _, v, rv, hv, rfl, _⟩
  · refine ⟨?_, hb⟩
    intro a ha
    show assign m.memory _ _ a < 65536
    unfold assign
    split
    · exact h3
    · exact h.1 a ha
  · refine ⟨h.1, ?_⟩
    show ∀ r, r < 16 → (ite _ _ _ : Nat → Nat) r < 65536
    split
    · exact assign_lt hb h1
    · exact hb
  · exact ⟨h.1, assign_lt hb hv⟩

theorem input_wrapper_lt (c : Int) {result : Nat} (h : result < 65536) :
    input_wrapper c result < 65536 := by
  unfold input_wrapper
  split
  · exact u16_of_int_lt _
  · exact h

/-- One pass of the loop body keeps the `uint16_t` invariant and leaves 0 or 255 in
`return_value`. -/
theorem loop_body_invariant (printchar : Int → List Nat) (c : Int) {l l1 : Loop}
    (hwf : l.machine.WF) (hip : l.input_pointer < 65536)
    (hb : loop_body printchar c l = .ok l1) :
    l1.machine.WF ∧ l1.input_pointer < 65536 ∧ (l1.return_value = 0 ∨ l1.return_value = 255) ∧
      ∃ o, do_instruction printchar l.machine = .ok o ∧ l1.return_value = o.rv ∧
        l1.running = if o.rv ≠ 0 then 0 else l.running := by
  unfold loop_body at hb
  cases hdo : do_instruction printchar l.machine with
  | error e =>
    rw [hdo] at hb
    cases hb
  | ok o =>
    rw [hdo] at hb
    simp only [bind, Except.bind] at hb
    cases hb
    have howf := do_instruction_wf printchar hwf hdo
    have hiw := input_wrapper_lt c hip
    refine ⟨⟨?_, howf.2⟩, ?_, ?_, o, rfl, rfl, rfl⟩
    · intro a ha
      show (ite _ _ _ : Nat → Nat) a < 65536
      split
      · unfold assign
        split
        · exact hiw
        · exact howf.1 a ha
      · exact howf.1 a ha
    · show (ite _ _ _ : Nat) < 65536
      split
      · decide
      · exact hiw
    · show o.rv = 0 ∨ o.rv = 255
      rcases do_instruction_cases printchar hwf hdo with ⟨_, _, rfl⟩ | ⟨_, rfl⟩ |
        ⟨_, _, v, rv, _, rfl, hrv⟩
      · exact check_halt_cases _
      · exact Or.inl rfl
      · rcases hrv with hrv | ⟨hrv, _⟩
        · exact Or.inl hrv
        · exact Or.inr hrv

/-- Whenever the loop is left, `return_value` is 0 or 255. -/
theorem main_loop_return_value (printchar : Int → List Nat) (input : Nat → Int) :
    ∀ (fuel k : Nat) (l l1 : Loop) (n : Nat), l.machine.WF → l.input_pointer < 65536 →
      (l.return_value = 0 ∨ l.return_value = 255) →
      main_loop printchar input fuel k l = .ok (some (l1, n)) →
      l1.return_value = 0 ∨ l1.return_value = 255 := by
  intro fuel
  induction fuel with
  | zero =>
    intro k l l1 n _ _ hrv hrun
    rw [main_loop] at hrun
    split at hrun
    · cases hrun
      exact hrv
    · cases hrun
  | succ fuel ih =>
    intro k l l1 n hwf hip hrv hrun
    rw [main_loop] at hrun
    split at hrun
    · cases hrun
      exact hrv
    · cases hb : loop_body printchar (input k) l with
      | error e =>
        rw [hb] at hrun
        cases hrun
      | ok l2 =>
        rw [hb] at hrun
        obtain ⟨h1, h2, h3, _⟩ := loop_body_invariant printchar (input k) hwf hip hb
        exact ih (k + 1) l2 l1 n h1 h2 h3 hrun

/-! ## C7: character output -/

/-- C7 (counterexample): the STORE of the value 13 (carriage return) to
`0xFFF0 + 0x000F = 0xFFFF`, the CHAROUT port, completes and writes no byte, because the unix
`printchar` suppresses 13: a STORE to the port does not always produce character output. -/
theorem C7_store_of_cr_to_charout_emits_nothing :
    opcode_of (fetch (oneInstr 0x2123 0xFFF0 0x000F 13)) = STORE ∧
    (bump (oneInstr 0x2123 0xFFF0 0x000F 13).registers
        (reg1_of (fetch (oneInstr 0x2123 0xFFF0 0x000F 13))) +
      bump (oneInstr 0x2123 0xFFF0 0x000F 13).registers
        (reg2_of (fetch (oneInstr 0x2123 0xFFF0 0x000F 13)))) % 65536 = 0xFFFF ∧
    ∃ o, do_instruction Unix.printchar (oneInstr 0x2123 0xFFF0 0x000F 13) = .ok o ∧
      o.output = [] ∧
      ¬ (o.output ≠ [] ↔
        (opcode_of (fetch (oneInstr 0x2123 0xFFF0 0x000F 13)) = STORE ∧
          (bump (oneInstr 0x2123 0xFFF0 0x000F 13).registers
              (reg1_of (fetch (oneInstr 0x2123 0xFFF0 0x000F 13))) +
            bump (oneInstr 0x2123 0xFFF0 0x000F 13).registers
              (reg2_of (fetch (oneInstr 0x2123 0xFFF0 0x000F 13)))) % 65536 = 0xFFFF)) := by
  refine ⟨rfl, rfl, _, rfl, rfl, ?_⟩
  intro hiff
  exact hiff.mpr ⟨rfl, rfl⟩ rfl

/-- C7 (amended): a STORE whose effective address `(registers[A] + registers[B]) mod 65536` is
the CHAROUT port `0xFFFF` completes, and its output is exactly what `printchar(registers[C])`
emits, which may be nothing; every step that is not undefined behaviour completes, and every
completed step other than such a STORE writes nothing; and the comparison of the un-wrapped sum
with `0xFFFF`, which the code makes, holds in the same states as the comparison of the wrapped
sum.  Steps that are undefined behaviour are left out. -/
theorem C7_charout_output_is_printchar (printchar : Int → List Nat) (m : Machine) (h : m.WF) :
    (bump m.registers (reg1_of (fetch m)) + bump m.registers (reg2_of (fetch m)) = MMIO_CHAROUT ↔
      (bump m.registers (reg1_of (fetch m)) + bump m.registers (reg2_of (fetch m))) % 65536 = 0xFFFF) ∧
    (opcode_of (fetch m) = STORE ∧
      (bump m.registers (reg1_of (fetch m)) + bump m.registers (reg2_of (fetch m))) % 65536 = 0xFFFF →
      ∃ o, do_instruction printchar m = .ok o ∧
        o.output = printchar (bump m.registers (reg3_of (fetch m)))) ∧
    (¬ undefined_step m → ∃ o, do_instruction printchar m = .ok o) ∧
    (∀ o, do_instruction printchar m = .ok o →
      ¬ (opcode_of (fetch m) = STORE ∧
        (bump m.registers (reg1_of (fetch m)) + bump m.registers (reg2_of (fetch m))) % 65536 =
          0xFFFF) →
      o.output = []) := by
  have h1 := bump_lt h (reg1_of_lt (fetch m))
  have h2 := bump_lt h (reg2_of_lt (fetch m))
  have hc : MMIO_CHAROUT = 65535 := rfl
  have hiff : bump m.registers (reg1_of (fetch m)) + bump m.registers (reg2_of (fetch m)) = MMIO_CHAROUT ↔
      (bump m.registers (reg1_of (fetch m)) + bump m.registers (reg2_of (fetch m))) % 65536 = 0xFFFF := by
    rw [hc]; omega
  refine ⟨hiff, ?_, do_instruction_completes printchar h, ?_⟩
  · rintro ⟨hop, hw⟩
    have hs := hiff.mpr hw
    rw [do_instruction_STORE printchar h hop, hs]
    exact ⟨_, rfl, rfl⟩
  · intro o ho hn
    rcases do_instruction_cases printchar h ho with ⟨hst, _, rfl⟩ | ⟨_, rfl⟩ |
      ⟨_, _, v, rv, _, rfl, _⟩
    · have hne : ¬ bump m.registers (reg1_of (fetch m)) + bump m.registers (reg2_of (fetch m)) =
          MMIO_CHAROUT := fun hs => hn ⟨hst, hiff.mp hs⟩
      show (if _ then _ else _ : List Nat) = []
      rw [if_neg hne]
    · rfl
    · rfl

/-- C7 (amended) at `charoutState`: the STORE to `0xFFF0 + 0x000F = 0xFFFF` of the word `0x41`
writes the single byte `0x41`. -/
theorem C7_charout_output_is_printchar_witness :
    charoutState.WF ∧
    ∃ o, do_instruction Unix.printchar charoutState = .ok o ∧ o.output = [0x41] := by
  obtain ⟨o, h1, h2⟩ :=
    (C7_charout_output_is_printchar Unix.printchar charoutState charoutState_wf).2.1 ⟨rfl, rfl⟩
  exact ⟨charoutState_wf, o, h1, by rw [h2]; rfl⟩

/-! ## C13: SHIFT -/

/-- A SHIFT whose count register holds less than 32 is a logical right shift:
`registers[A]` becomes `floor(registers[B] / 2^registers[C])`. -/
theorem shift_small_count_is_right_shift (printchar : Int → List Nat) (m : Machine) (h : m.WF)
    (hop : opcode_of (fetch m) = SHIFT) (hn : bump m.registers (reg3_of (fetch m)) < INT_BITS) :
    ∃ o, do_instruction printchar m = .ok o ∧ o.rv = 0 ∧
      o.machine.registers (reg1_of (fetch m)) =
        bump m.registers (reg2_of (fetch m)) / 2 ^ bump m.registers (reg3_of (fetch m)) := by
  have h2 := bump_lt h (reg2_of_lt (fetch m))
  have hpos : ¬ int16 (bump m.registers (reg3_of (fetch m))) < 0 := by
    have : bump m.registers (reg3_of (fetch m)) < 32 := hn
    unfold int16
    split <;> omega
  rw [do_instruction_SHIFT printchar h hop, if_neg hpos, if_pos hn]
  refine ⟨_, rfl, rfl, ?_⟩
  show assign _ _ _ _ = _
  rw [assign_same, Nat.shiftRight_eq_div_pow]
  exact Nat.mod_eq_of_lt (Nat.lt_of_le_of_lt (Nat.div_le_self _ _) h2)

/-- A SHIFT whose count register holds 32 or more, in particular every SHIFT that takes the
left-shift branch, shifts an `int` by at least its width and has no defined result. -/
theorem shift_large_count_undefined (printchar : Int → List Nat) (m : Machine) (h : m.WF)
    (hop : opcode_of (fetch m) = SHIFT) (hn : INT_BITS ≤ bump m.registers (reg3_of (fetch m))) :
    do_instruction printchar m = .error .shiftCount := by
  rw [do_instruction_SHIFT printchar h hop]
  simp only [if_neg (Nat.not_lt.mpr hn)]
  split <;> rfl

/-- C13 (failing input): SHIFT with `registers[B] = 1` and `registers[C] = 0x8000`, a count that
is negative as `int16_t`: the code evaluates `1 << 32768` on a 32-bit `int`, which has no defined
result, where the claim says `registers[A]` becomes `(1 * 2^32768) mod 65536 = 0`. -/
theorem C13_shift_left_by_raw_count_undefined :
    opcode_of (fetch (oneInstr 0x8123 0 1 0x8000)) = SHIFT ∧
    bump (oneInstr 0x8123 0 1 0x8000).registers (reg2_of (fetch (oneInstr 0x8123 0 1 0x8000))) = 1 ∧
    bump (oneInstr 0x8123 0 1 0x8000).registers (reg3_of (fetch (oneInstr 0x8123 0 1 0x8000))) =
      0x8000 ∧
    int16 0x8000 < 0 ∧
    do_instruction Unix.printchar (oneInstr 0x8123 0 1 0x8000) = .error .shiftCount :=
  ⟨rfl, rfl, rfl, by decide, rfl⟩


/-! ## C14: the program counter -/

/-- For the steps that are defined: a step executes the word `memory[old PC]`; it completes in
every state in which it is not undefined behaviour, and whenever it completes register 15 holds
`(old PC + 1) mod 65536` unless the instruction is a BRANCH whose mask test succeeds or an opcode
other than STORE and BRANCH (these write `registers[A]`) with `A = 15`; in particular after
every completed STORE. -/
theorem pc_is_incremented_when_defined (printchar : Int → List Nat) (m : Machine) (h : m.WF) :
    mem_read m.memory (m.registers 15) = .ok (fetch m) ∧
    (¬ undefined_step m → ∃ o, do_instruction printchar m = .ok o) ∧
    ∀ o, do_instruction printchar m = .ok o →
      (¬ (opcode_of (fetch m) = BRANCH ∧
            bump m.registers (reg2_of (fetch m)) &&& reg3_of (fetch m) = reg3_of (fetch m)) →
        ¬ (opcode_of (fetch m) ≠ STORE ∧ opcode_of (fetch m) ≠ BRANCH ∧ reg1_of (fetch m) = 15) →
        o.machine.registers 15 = (m.registers 15 + 1) % 65536) ∧
      (opcode_of (fetch m) = STORE → o.machine.registers 15 = (m.registers 15 + 1) % 65536) := by
  have hpc : bump m.registers 15 = (m.registers 15 + 1) % 65536 := by
    simp [bump, assign, u16]
  refine ⟨fetch_ok h, do_instruction_completes printchar h, ?_⟩
  intro o ho
  rcases do_instruction_cases printchar h ho with ⟨hst, _, rfl⟩ | ⟨hbr, rfl⟩ |
    ⟨hns, hnb, v, rv, _, rfl, _⟩
  · exact ⟨fun _ _ => hpc, fun _ => hpc⟩
  · constructor
    · intro hmask _
      show (ite _ _ _ : Nat → Nat) 15 = _
      rw [if_neg (fun hm => hmask ⟨hbr, hm⟩)]
      exact hpc
    · intro hst
      rw [hbr] at hst
      exact absurd hst (by decide)
  · constructor
    · intro _ hdest
      have hne : ¬ (15 = reg1_of (fetch m)) := fun he => hdest ⟨hns, hnb, he.symm⟩
      show assign _ _ _ 15 = _
      unfold assign
      rw [if_neg hne]
      exact hpc
    · intro hst
      exact absurd hst hns

/-- C14 (failing input): the STORE with `registers[A] = 0xFFFF` and `registers[B] = 0x0010`
writes `memory[0x1000F]`, fifteen words past the end of the array, so the step has no defined
state in which PC is `(old PC + 1) mod 65536 = 1`. -/
theorem C14_store_past_memory_pc_undefined :
    opcode_of (fetch (oneInstr 0x2123 0xFFFF 0x0010 0x0040)) = STORE ∧
    bump (oneInstr 0x2123 0xFFFF 0x0010 0x0040).registers
        (reg1_of (fetch (oneInstr 0x2123 0xFFFF 0x0010 0x0040))) +
      bump (oneInstr 0x2123 0xFFFF 0x0010 0x0040).registers
        (reg2_of (fetch (oneInstr 0x2123 0xFFFF 0x0010 0x0040))) = AVAILABLE_RAM + 15 ∧
    do_instruction Unix.printchar (oneInstr 0x2123 0xFFFF 0x0010 0x0040) = .error .outOfBounds ∧
    ¬ ∃ o, do_instruction Unix.printchar (oneInstr 0x2123 0xFFFF 0x0010 0x0040) = .ok o ∧
      o.machine.registers 15 = 1 := by
  refine ⟨rfl, rfl, rfl, ?_⟩
  rintro ⟨o, ho, _⟩
  have he : do_instruction Unix.printchar (oneInstr 0x2123 0xFFFF 0x0010 0x0040) =
      .error .outOfBounds := rfl
  rw [he] at ho
  cases ho

/-! ## C15: storage access without a backing file -/

/-- C15: when `storage_name` is the empty string then, for every value of `is_storage_open` and
whatever the file system would answer, `open_storage` writes the bell character (byte 7),
returns -1 and does not call `quit`, and makes no library call on a storage file;
`write_storage` in that state returns to its caller with the same single byte written and no
storage operation done. -/
theorem C15_no_backing_file_rings_bell (is_storage_open : Nat) (reopen : Option Nat)
    (data : Nat) :
    open_storage "" is_storage_open reopen = ⟨.returned (-1), [7], []⟩ ∧
    write_storage "" is_storage_open reopen data = ⟨.returned (), [7], []⟩ := by
  have ho : open_storage "" is_storage_open reopen = ⟨.returned (-1), [7], []⟩ := by
    unfold open_storage
    rw [if_pos rfl]
    rfl
  refine ⟨ho, ?_⟩
  unfold write_storage
  rw [ho]
  rfl

/-! ## C17: NOR is OR -/

/-- C17: from two states with the same registers whose instruction words are a NOR and an OR
with the same operand fields, `do_instruction` completes in both with the same registers, the
same return value 0, no output, and `memory` left as it was; `registers[A]` becomes
`registers[B] | registers[C]`, not its complement. -/
theorem C17_nor_behaves_as_or (printchar : Int → List Nat) (m1 m2 : Machine) (h1 : m1.WF)
    (h2 : m2.WF) (hregs : m1.registers = m2.registers)
    (hop1 : opcode_of (fetch m1) = NOR) (hop2 : opcode_of (fetch m2) = OR)
    (hA : reg1_of (fetch m1) = reg1_of (fetch m2)) (hB : reg2_of (fetch m1) = reg2_of (fetch m2))
    (hC : reg3_of (fetch m1) = reg3_of (fetch m2)) :
    ∃ o1 o2, do_instruction printchar m1 = .ok o1 ∧ do_instruction printchar m2 = .ok o2 ∧
      o1.machine.registers = o2.machine.registers ∧ o1.rv = o2.rv ∧ o1.rv = 0 ∧
      o1.output = [] ∧ o2.output = [] ∧
      o1.machine.memory = m1.memory ∧ o2.machine.memory = m2.memory ∧
      o1.machine.registers (reg1_of (fetch m1)) =
        bump m1.registers (reg2_of (fetch m1)) ||| bump m1.registers (reg3_of (fetch m1)) := by
  rw [do_instruction_NOR printchar h1 hop1, do_instruction_OR printchar h2 hop2]
  refine ⟨_, _, rfl, rfl, ?_, rfl, rfl, rfl, rfl, rfl, rfl, assign_same _ _ _⟩
  show assign _ _ _ = assign _ _ _
  rw [hregs, hA, hB, hC]

/-- C17 at the words `0xC123` (NOR) and `0xA123` (OR) with `registers[2] = 0x00F0` and
`registers[3] = 0x0F05`: both leave `registers[1] = 0x0FF5`. -/
theorem C17_nor_behaves_as_or_witness :
    (oneInstr 0xC123 0 0x00F0 0x0F05).WF ∧ (oneInstr 0xA123 0 0x00F0 0x0F05).WF ∧
    opcode_of (fetch (oneInstr 0xC123 0 0x00F0 0x0F05)) = NOR ∧
    opcode_of (fetch (oneInstr 0xA123 0 0x00F0 0x0F05)) = OR ∧
    ∃ o1 o2, do_instruction Unix.printchar (oneInstr 0xC123 0 0x00F0 0x0F05) = .ok o1 ∧
      do_instruction Unix.printchar (oneInstr 0xA123 0 0x00F0 0x0F05) = .ok o2 ∧
      o1.machine.registers = o2.machine.registers ∧ o1.machine.registers 1 = 0x0FF5 := by
  have w1 : (oneInstr 0xC123 0 0x00F0 0x0F05).WF :=
    oneInstr_wf (by decide) (by decide) (by decide) (by decide)
  have w2 : (oneInstr 0xA123 0 0x00F0 0x0F05).WF :=
    oneInstr_wf (by decide) (by decide) (by decide) (by decide)
  obtain ⟨o1, o2, e1, e2, hr, _, _, _, _, _, _, hv⟩ :=
    C17_nor_behaves_as_or Unix.printchar (oneInstr 0xC123 0 0x00F0 0x0F05)
      (oneInstr 0xA123 0 0x00F0 0x0F05) w1 w2 rfl rfl rfl rfl rfl rfl
  exact ⟨w1, w2, rfl, rfl, o1, o2, e1, e2, hr, by
    rw [show (1 : Nat) = reg1_of (fetch (oneInstr 0xC123 0 0x00F0 0x0F05)) from rfl, hv]; rfl⟩

/-! ## C18: bounds of the indices -/

/-- The register indices and the index of the instruction fetch are within bounds. -/
theorem register_and_fetch_indices_in_bounds (m : Machine) (h : m.WF) :
    reg1_of (fetch m) < 16 ∧ reg2_of (fetch m) < 16 ∧ reg3_of (fetch m) < 16 ∧
    m.registers 15 < AVAILABLE_RAM :=
  ⟨reg1_of_lt _, reg2_of_lt _, reg3_of_lt _, h.2 15 (by decide)⟩

/-- C18 (failing input): LOAD with `registers[B] = 0xFFFF` and `registers[C] = 1` reads
`memory[0x10000]`, one word past the end of the array of 65536 words: the out-of-range access
is reached. -/
theorem C18_load_index_out_of_bounds :
    opcode_of (fetch (oneInstr 0x1123 0 0xFFFF 1)) = LOAD ∧
    bump (oneInstr 0x1123 0 0xFFFF 1).registers (reg2_of (fetch (oneInstr 0x1123 0 0xFFFF 1))) +
      bump (oneInstr 0x1123 0 0xFFFF 1).registers (reg3_of (fetch (oneInstr 0x1123 0 0xFFFF 1))) =
      0x10000 ∧
    ¬ (0x10000 < AVAILABLE_RAM) ∧
    do_instruction Unix.printchar (oneInstr 0x1123 0 0xFFFF 1) = .error .outOfBounds :=
  ⟨rfl, rfl, by decide, rfl⟩


/-! ## C19: the return value -/

/-- For the steps that are defined: a step completes in every state in which it is not
undefined behaviour, and whenever it completes it returns 0 or 255, and 255 only for the opcodes
LOAD, STORE, MSO and LSO; a pass of the loop body over any other opcode leaves `running` as it
was; and whenever the main loop ends, the status passed to `quit` is 0. -/
theorem return_value_is_0_or_255_when_defined (printchar : Int → List Nat) (m : Machine) (h : m.WF) :
    (¬ undefined_step m → ∃ o, do_instruction printchar m = .ok o) ∧
    (∀ o, do_instruction printchar m = .ok o →
      (o.rv = 0 ∨ o.rv = 255) ∧
      (o.rv = 255 → opcode_of (fetch m) = LOAD ∨ opcode_of (fetch m) = STORE ∨
        opcode_of (fetch m) = MSO ∨ opcode_of (fetch m) = LSO)) ∧
    (∀ (c : Int) (l l1 : Loop), l.machine = m → l.input_pointer < 65536 →
      loop_body printchar c l = .ok l1 →
      ¬ (opcode_of (fetch m) = LOAD ∨ opcode_of (fetch m) = STORE ∨
        opcode_of (fetch m) = MSO ∨ opcode_of (fetch m) = LSO) →
      l1.running = l.running) ∧
    (∀ (input : Nat → Int) (fuel : Nat) (status : Int) (n : Nat),
      main_run printchar input fuel m = .ok (some (status, n)) → status = 0) := by
  have hstep : ∀ o, do_instruction printchar m = .ok o →
      (o.rv = 0 ∨ o.rv = 255) ∧
      (o.rv = 255 → opcode_of (fetch m) = LOAD ∨ opcode_of (fetch m) = STORE ∨
        opcode_of (fetch m) = MSO ∨ opcode_of (fetch m) = LSO) := by
    intro o ho
    rcases do_instruction_cases printchar h ho with ⟨hst, _, rfl⟩ | ⟨_, rfl⟩ |
      ⟨_, _, v, rv, _, rfl, hrv⟩
    · exact ⟨check_halt_cases _, fun _ => Or.inr (Or.inl hst)⟩
    · have hne : ¬ ((0 : Int) = 255) := by decide
      exact ⟨Or.inl rfl, fun h0 => absurd h0 hne⟩
    · rcases hrv with hrv | ⟨hrv, hl | hl | hl⟩
      · have hne : ¬ ((0 : Int) = 255) := by decide
        exact ⟨Or.inl hrv, fun h0 => absurd (hrv.symm.trans h0) hne⟩
      · exact ⟨Or.inr hrv, fun _ => Or.inl hl⟩
      · exact ⟨Or.inr hrv, fun _ => Or.inr (Or.inr (Or.inl hl))⟩
      · exact ⟨Or.inr hrv, fun _ => Or.inr (Or.inr (Or.inr hl))⟩
  refine ⟨do_instruction_completes printchar h, hstep, ?_, ?_⟩
  · intro c l l1 hm hip hb hother
    subst hm
    obtain ⟨_, _, _, o, ho, _, hrun⟩ := loop_body_invariant printchar c h hip hb
    have hz : o.rv = 0 := by
      rcases (hstep o ho).1 with hz | h255
      · exact hz
      · exact absurd ((hstep o ho).2 h255) hother
    rw [hrun, hz]
    rfl
  · intro input fuel status n hrun
    unfold main_run at hrun
    cases hl : main_loop printchar input fuel 0 (main_init m) with
    | error e =>
      rw [hl] at hrun
      cases hrun
    | ok r =>
      rw [hl] at hrun
      simp only [bind, Except.bind] at hrun
      cases r with
      | none => cases hrun
      | some p =>
        obtain ⟨l1, k⟩ := p
        cases hrun
        have hwf : (main_init m).machine.WF :=
          ⟨h.1, assign_lt h.2 (by decide)⟩
        have hrv := main_loop_return_value printchar input fuel 0 (main_init m) l1 k hwf
          (show (0 : Nat) < 65536 by decide) (Or.inl rfl) hl
        show main_exit l1 = 0
        unfold main_exit quit
        rcases hrv with hrv | hrv <;> simp [hrv]

/-- C19 (failing input): the STORE with `registers[A] = 0xFFFF` and `registers[B] = 0xFFFB`
writes `memory[0x1FFFA]` out of bounds: `do_instruction` returns neither 0 nor 255, and with
however many passes allowed the run reaches no `quit` with status 0.  Likewise the SHIFT with
the count 32, an opcode the claim lists as never stopping the machine, has no defined result and
the run does not go on. -/
theorem C19_out_of_bounds_store_returns_nothing :
    opcode_of (fetch (oneInstr 0x2123 0xFFFF 0xFFFB 0)) = STORE ∧
    (¬ ∃ o, do_instruction Unix.printchar (oneInstr 0x2123 0xFFFF 0xFFFB 0) = .ok o ∧
      (o.rv = 0 ∨ o.rv = 255)) ∧
    (∀ fuel, main_run Unix.printchar (fun _ => 0) (fuel + 1) (oneInstr 0x2123 0xFFFF 0xFFFB 0) =
      .error .outOfBounds) ∧
    opcode_of (fetch (oneInstr 0x8123 0 1 32)) = SHIFT ∧
    do_instruction Unix.printchar (oneInstr 0x8123 0 1 32) = .error .shiftCount ∧
    (∀ fuel, main_run Unix.printchar (fun _ => 0) (fuel + 1) (oneInstr 0x8123 0 1 32) =
      .error .shiftCount) := by
  refine ⟨rfl, ?_, fun _ => rfl, rfl, rfl, fun _ => rfl⟩
  rintro ⟨o, ho, _⟩
  have he : do_instruction Unix.printchar (oneInstr 0x2123 0xFFFF 0xFFFB 0) =
      .error .outOfBounds := rfl
  rw [he] at ho
  cases ho

/-! ## C20: what a step leaves unchanged -/

/-- For the steps that are defined: a step completes in every state in which it is not
undefined behaviour, and whenever it completes, every register other than `registers[A]` and
register 15 is unchanged, a STORE
changes no register other than register 15, every opcode other than STORE leaves every word of
`memory` unchanged, and a STORE, which completes exactly when `registers[A] + registers[B]` is
below 65536, sets that one word to `registers[C]` and leaves every other word unchanged, whichever
address it is. -/
theorem step_frame_when_defined (printchar : Int → List Nat) (m : Machine) (h : m.WF) :
    (¬ undefined_step m → ∃ o, do_instruction printchar m = .ok o) ∧
    (opcode_of (fetch m) = STORE →
      bump m.registers (reg1_of (fetch m)) + bump m.registers (reg2_of (fetch m)) < 65536 →
      ∃ o, do_instruction printchar m = .ok o) ∧
    ∀ o, do_instruction printchar m = .ok o →
      (∀ r, r ≠ reg1_of (fetch m) → r ≠ 15 → o.machine.registers r = m.registers r) ∧
      (opcode_of (fetch m) = STORE → ∀ r, r ≠ 15 → o.machine.registers r = m.registers r) ∧
      (opcode_of (fetch m) ≠ STORE → o.machine.memory = m.memory) ∧
      (opcode_of (fetch m) = STORE →
        bump m.registers (reg1_of (fetch m)) + bump m.registers (reg2_of (fetch m)) < 65536 ∧
        o.machine.memory
            (bump m.registers (reg1_of (fetch m)) + bump m.registers (reg2_of (fetch m))) =
          bump m.registers (reg3_of (fetch m)) ∧
        ∀ a, a ≠ bump m.registers (reg1_of (fetch m)) + bump m.registers (reg2_of (fetch m)) →
          o.machine.memory a = m.memory a) := by
  have hbump : ∀ r, r ≠ 15 → bump m.registers r = m.registers r := by
    intro r hr
    unfold bump assign
    rw [if_neg hr]
  refine ⟨do_instruction_completes printchar h, ?_, ?_⟩
  · intro hst hlt
    have hlt2 : bump m.registers (reg1_of (fetch m)) + bump m.registers (reg2_of (fetch m)) <
        AVAILABLE_RAM := hlt
    rw [do_instruction_STORE printchar h hst, if_pos hlt2]
    exact ⟨_, rfl⟩
  intro o ho
  rcases do_instruction_cases printchar h ho with ⟨hst, hlt, rfl⟩ | ⟨hbr, rfl⟩ |
    ⟨hns, _, v, rv, _, rfl, _⟩
  · refine ⟨fun r _ hr => hbump r hr, fun _ r hr => hbump r hr, fun hne => absurd hst hne, ?_⟩
    intro _
    refine ⟨hlt, assign_same _ _ _, ?_⟩
    intro a ha
    show assign _ _ _ a = _
    unfold assign
    rw [if_neg ha]
  · have hreg : ∀ r, r ≠ 15 →
        (if bump m.registers (reg2_of (fetch m)) &&& reg3_of (fetch m) = reg3_of (fetch m) then
          assign (bump m.registers) 15 (bump m.registers (reg1_of (fetch m)))
        else bump m.registers) r = m.registers r := by
      intro r hr
      split
      · unfold assign
        rw [if_neg hr]
        exact hbump r hr
      · exact hbump r hr
    refine ⟨fun r _ hr => hreg r hr, fun _ r hr => hreg r hr, fun _ => rfl, ?_⟩
    intro hst
    rw [hbr] at hst
    exact absurd hst (by decide)
  · refine ⟨?_, fun hst => absurd hst hns, fun _ => rfl, fun hst => absurd hst hns⟩
    intro r hr1 hr
    show assign _ _ _ r = _
    unfold assign
    rw [if_neg hr1]
    exact hbump r hr

/-- C20 (failing input): the STORE with `registers[A] = 0xFFFF` and `registers[B] = 0x0006`
has an effective address of 65536 or more and writes `memory[0x10005]`, the sixth word behind
the array: the step has no defined state in which every register other than register 15 is
unchanged. -/
theorem C20_store_past_memory_frame_undefined :
    opcode_of (fetch (oneInstr 0x2123 0xFFFF 0x0006 0x0040)) = STORE ∧
    bump (oneInstr 0x2123 0xFFFF 0x0006 0x0040).registers
        (reg1_of (fetch (oneInstr 0x2123 0xFFFF 0x0006 0x0040))) +
      bump (oneInstr 0x2123 0xFFFF 0x0006 0x0040).registers
        (reg2_of (fetch (oneInstr 0x2123 0xFFFF 0x0006 0x0040))) = AVAILABLE_RAM + 5 ∧
    do_instruction Unix.printchar (oneInstr 0x2123 0xFFFF 0x0006 0x0040) = .error .outOfBounds ∧
    ¬ ∃ o, do_instruction Unix.printchar (oneInstr 0x2123 0xFFFF 0x0006 0x0040) = .ok o ∧
      ∀ r, r ≠ 15 → o.machine.registers r = (oneInstr 0x2123 0xFFFF 0x0006 0x0040).registers r := by
  refine ⟨rfl, rfl, rfl, ?_⟩
  rintro ⟨o, ho, _⟩
  have he : do_instruction Unix.printchar (oneInstr 0x2123 0xFFFF 0x0006 0x0040) =
      .error .outOfBounds := rfl
  rw [he] at ho
  cases ho

end Riw16
